import Mathlib

/-!
Verification development for the dns-manager repository.

The reconciliation engine lives in the Express server part of the source
(`extractTraefikHosts`, `createDNSRecordsForContainer`, `scheduleRecordDeletion`,
`monitorContainers`, the HTTP route handlers, and the module-level `managedRecords`
and `deletePendingRecords` maps).  This file is a shallow embedding of that code:

* JS strings are embedded as `List Char` (`Str`), so that the character-level
  scanning done by the host-rule regexes can be modelled exactly.
* The two module-level `Map`s become association lists with JS `Map` semantics:
  `Map.set` replaces the value in place when the key is present and appends
  otherwise (`mapSet`), `Map.delete` removes the entry with the given key
  (`mapDelete`; keys are unique in a JS `Map`, so removal-by-key equals a
  filter on the key).
* Registrar calls (`simplyAPI.createCNAMERecord`, `simplyAPI.deleteRecord`)
  are network effects; their outcomes are supplied by oracles that map the
  request arguments to the registrar's answer (`some recordId` / failure for
  creates, success flag for deletes).  Every issued call is recorded in an
  event log; `Event.createCall` additionally carries the hostname that was in
  scope at the call site (a ghost field: it is not an argument of the HTTP
  request, but lets theorems speak about "the hostname this call was made for").
* `setTimeout` timers are represented by the pending-deletion map together
  with a fresh-timer counter; the timer callback of `scheduleRecordDeletion`
  is embedded as `deletionTimerFires`.
* Log output (`log.info` / `log.warn` / `log.error`) is not modelled; a warned
  and skipped hostname is simply one that produces no call and no table change.
-/

namespace DnsManager

/-- JS strings, embedded as their character lists. -/
abbrev Str := List Char

/-- Embed a Lean string literal as a `Str`. -/
def str (s : String) : Str := s.data

/-- The backtick character (code 96), written via `Char.ofNat`. -/
def backtickChar : Char := Char.ofNat 96

/-- The double-quote character (code 34). -/
def quoteChar : Char := Char.ofNat 34

/-- The single-quote character (code 39). -/
def apostropheChar : Char := Char.ofNat 39

/-- JS `String.prototype.includes`: does `sub` occur as a contiguous substring
of `s`?  (`key.includes('traefik.http.routers')` etc. in `extractTraefikHosts`.) -/
def listIncludes (sub : Str) : Str → Bool
  | [] => sub.isPrefixOf []
  | c :: rest => sub.isPrefixOf (c :: rest) || listIncludes sub rest

/-- `strIncludes s sub` = JS `s.includes(sub)`. -/
def strIncludes (s sub : Str) : Bool := listIncludes sub s

/-- JS `value.replace(/['"]/g, '')` from `extractTraefikHosts`: delete every
single- and double-quote character.  Backticks are NOT in this character
class and are left in place. -/
def stripQuotes (s : Str) : Str :=
  s.filter (fun c => !(c == apostropheChar || c == quoteChar))

/-- Fuel-indexed scanner for the global regex `Host\(`...`\)` of
`extractTraefikHosts` (first pattern: backtick-quoted host, capture group
`[^`]+`).  On a failed attempt the scan advances one character (the JS regex
engine tries the next start position); on a match it captures the chunk
between the backticks and resumes after the closing parenthesis (the engine
resumes at `lastIndex`).  The fuel only bounds recursion and is chosen large
enough in `scanHostBacktick` that it is never exhausted. -/
def scanHostBacktickAux : Nat → Str → List Str
  | 0, _ => []
  | _ + 1, [] => []
  | fuel + 1, c :: rest =>
    if (str "Host(`").isPrefixOf (c :: rest) then
      let after := (c :: rest).drop 6
      let tok := after.takeWhile (fun x => x != backtickChar)
      match after.dropWhile (fun x => x != backtickChar) with
      | r1 :: r2 :: rem2 =>
        if tok != [] && r1 == backtickChar && r2 == ')' then
          tok :: scanHostBacktickAux fuel rem2
        else scanHostBacktickAux fuel rest
      | _ => scanHostBacktickAux fuel rest
    else scanHostBacktickAux fuel rest

/-- All captures of the global regex `Host\(`[^`]+`\)` on `s`. -/
def scanHostBacktick (s : Str) : List Str := scanHostBacktickAux (s.length + 1) s

/-- Fuel-indexed scanner for the second global regex of `extractTraefikHosts`,
`Host\(([^)]+)\)` (capture group `[^)]+`): everything between `Host(` and the
next closing parenthesis, quotes of any kind included. -/
def scanHostParenAux : Nat → Str → List Str
  | 0, _ => []
  | _ + 1, [] => []
  | fuel + 1, c :: rest =>
    if (str "Host(").isPrefixOf (c :: rest) then
      let after := (c :: rest).drop 5
      let tok := after.takeWhile (fun x => x != ')')
      match after.dropWhile (fun x => x != ')') with
      | r1 :: rem2 =>
        if tok != [] && r1 == ')' then
          tok :: scanHostParenAux fuel rem2
        else scanHostParenAux fuel rest
      | _ => scanHostParenAux fuel rest
    else scanHostParenAux fuel rest

/-- All captures of the global regex `Host\(([^)]+)\)` on `s`. -/
def scanHostParen (s : Str) : List Str := scanHostParenAux (s.length + 1) s

/-- JS `[...new Set(xs)]`: remove duplicates keeping the first occurrence of
each element, preserving order. -/
def dedupFirst (l : List Str) : List Str :=
  l.foldl (fun acc h => if acc.contains h then acc else acc ++ [h]) []

/-- `extractTraefikHosts(labels)` from the server source.  For every label
whose key contains both `traefik.http.routers` and `.rule`, push all captures
of the backtick-quoted `Host` regex, then all captures of the bare `Host(...)`
regex with single/double quotes stripped; finally deduplicate via
`[...new Set(hosts)]`.  (The unused `patterns` array of the source is dead
code and not modelled.)  Note the function itself never consults the
`traefik.enable` label. -/
def extractTraefikHosts (labels : List (Str × Str)) : List Str :=
  let hosts := labels.foldl
    (fun acc kv =>
      if strIncludes kv.1 (str "traefik.http.routers") && strIncludes kv.1 (str ".rule") then
        acc ++ scanHostBacktick kv.2 ++ (scanHostParen kv.2).map stripQuotes
      else acc) []
  dedupFirst hosts

/-- The server `config` object (environment variables with defaults). -/
structure Config where
  accountName : Str
  apiKey : Str
  deleteDelay : Nat
  pollInterval : Nat
  port : Nat
  targetDomain : Str
deriving DecidableEq, Repr

/-- One entry of the `managedRecords` map: the value stored by
`createDNSRecordsForContainer` under key `` `${containerId}-${host}` ``. -/
structure ManagedRecord where
  recordId : Nat
  hostname : Str
  domain : Str
  subdomain : Str
  containerId : Str
deriving DecidableEq, Repr

/-- The engine's module-level mutable state: the `managedRecords` map, the
`deletePendingRecords` map (container id to the currently armed timer,
identified by a timer id), and a counter supplying fresh timer ids. -/
structure EngineState where
  managedRecords : List (Str × ManagedRecord)
  pending : List (Str × Nat)
  nextTimer : Nat
deriving DecidableEq, Repr

/-- Both maps start empty when the process starts. -/
def initialState : EngineState := ⟨[], [], 0⟩

/-- One observable effect of the engine: a registrar create call (with the
ghost hostname it was issued for), a registrar delete call, or the arming of
a deletion timer. -/
inductive Event where
  | createCall (domain name target : Str) (ttl : Nat) (ok : Bool) (host : Str)
  | deleteCall (domain : Str) (recordId : Nat) (ok : Bool)
  | armTimer (containerId : Str)
deriving DecidableEq, Repr

/-- Registrar behaviour for `createCNAMERecord domain name target`: `some id`
when the HTTP call succeeds with record id `id`, `none` when it throws. -/
def CreateOracle : Type := Str → Str → Str → Option Nat

/-- Registrar behaviour for `deleteRecord domain recordId`: `true` when the
HTTP call succeeds, `false` when it throws. -/
def DeleteOracle : Type := Str → Nat → Bool

/-- JS `Map.prototype.set`: replace in place when the key is present
(insertion order kept), append otherwise. -/
def mapSet {β : Type} (m : List (Str × β)) (k : Str) (v : β) : List (Str × β) :=
  if m.any (fun p => p.1 == k) then
    m.map (fun p => if p.1 == k then (k, v) else p)
  else m ++ [(k, v)]

/-- JS `Map.prototype.delete`: remove the entry with the given key.  Keys in
a JS `Map` are unique, so this equals filtering the key out. -/
def mapDelete {β : Type} (m : List (Str × β)) (k : Str) : List (Str × β) :=
  m.filter (fun p => !(p.1 == k))

/-- A container as observed by the engine: the id and state from
`docker.listContainers`, together with the label map that `container.inspect()`
reports for it (the tick inspects the same container it listed, so the labels
are carried on the listing entry). -/
structure ContainerInfo where
  id : Str
  state : Str
  labels : List (Str × Str)
deriving DecidableEq, Repr

/-- `containerInfo.Id.substring(0, 12)`. -/
def shortId (s : Str) : Str := s.take 12

/-- JS object property lookup `labels[key]` (label keys are unique). -/
def lookupLabel (labels : List (Str × Str)) (k : Str) : Option Str :=
  labels.lookup k

/-- The call-issuing half of the per-host body of
`createDNSRecordsForContainer`: split the host on `.`, skip (with a warning
in the source) when it has fewer than two parts or an empty subdomain,
otherwise issue `createCNAMERecord(domain, subdomain, config.targetDomain || host, 3600)`.
Returns `none` when the host is skipped, otherwise the logged call event
together with the `managedRecords` entry to store when the call succeeded. -/
def issueCreate (cfg : Config) (co : CreateOracle) (cid host : Str) :
    Option (Event × Option (Str × ManagedRecord)) :=
  let parts := host.splitOn '.'
  if parts.length < 2 then none
  else
    let subdomain := List.intercalate ['.'] (parts.take (parts.length - 2))
    let domain := List.intercalate ['.'] (parts.drop (parts.length - 2))
    if subdomain == [] then none
    else
      let target := if cfg.targetDomain != [] then cfg.targetDomain else host
      match co domain subdomain target with
      | some rid =>
        some (Event.createCall domain subdomain target 3600 true host,
              some (cid ++ str "-" ++ host,
                    ⟨rid, host, domain, subdomain, cid⟩))
      | none =>
        some (Event.createCall domain subdomain target 3600 false host, none)

/-- One iteration of the `for (const host of hosts)` loop of
`createDNSRecordsForContainer`: issue the create call (if the host is not
skipped) and, when it succeeds, store the managed record under
`` `${containerId}-${host}` ``; a failed call is logged and the loop
continues. -/
def createForHost (cfg : Config) (co : CreateOracle) (cid : Str)
    (s : EngineState) (host : Str) : EngineState × List Event :=
  match issueCreate cfg co cid host with
  | none => (s, [])
  | some (ev, none) => (s, [ev])
  | some (ev, some (k, r)) =>
    ({ s with managedRecords := mapSet s.managedRecords k r }, [ev])

/-- The loop body folding `createForHost` over the extracted hosts,
accumulating state and issued events. -/
def hostStep (cfg : Config) (co : CreateOracle) (cid : Str)
    (acc : EngineState × List Event) (host : Str) : EngineState × List Event :=
  let r := createForHost cfg co cid acc.1 host
  (r.1, acc.2 ++ r.2)

/-- `createDNSRecordsForContainer(container)`: return immediately unless the
`traefik.enable` label is exactly `true`; warn and return when no hosts are
extracted; otherwise process every host in order, one failing hostname not
blocking the others. -/
def createDNSRecordsForContainer (cfg : Config) (co : CreateOracle)
    (s : EngineState) (c : ContainerInfo) : EngineState × List Event :=
  let cid := shortId c.id
  if lookupLabel c.labels (str "traefik.enable") != some (str "true") then (s, [])
  else
    let hosts := extractTraefikHosts c.labels
    if hosts == [] then (s, [])
    else hosts.foldl (hostStep cfg co cid) (s, [])

/-- `Array.from(managedRecords.keys()).some(key => key.startsWith(containerId))`. -/
def hasRecordsFor (s : EngineState) (cid : Str) : Bool :=
  s.managedRecords.any (fun p => cid.isPrefixOf p.1)

/-- `deletePendingRecords.has(containerId)`. -/
def pendingHas (s : EngineState) (cid : Str) : Bool :=
  s.pending.any (fun p => p.1 == cid)

/-- The pending-deletion cancellation of `monitorContainers`: when a running
container has a pending deletion, clear the timeout and delete the map entry. -/
def cancelPending (s : EngineState) (cid : Str) : EngineState :=
  if pendingHas s cid then { s with pending := mapDelete s.pending cid } else s

/-- `scheduleRecordDeletion(containerId)`: clear any existing timer for the
container (the map entry is then overwritten, not duplicated, by `set`) and
arm a fresh timer.  The fresh timer gets id `nextTimer`. -/
def scheduleRecordDeletion (s : EngineState) (cid : Str) : EngineState × List Event :=
  ({ s with pending := mapSet s.pending cid s.nextTimer, nextTimer := s.nextTimer + 1 },
   [Event.armTimer cid])

/-- One iteration of the running-container loop of `monitorContainers`,
threading (state, event log, accumulated running-id set): skip non-running
containers; add the short id to the running set; create records unless some
managed-record key starts with the short id; cancel any pending deletion. -/
def tickContainerStep (cfg : Config) (co : CreateOracle)
    (acc : EngineState × List Event × List Str) (c : ContainerInfo) :
    EngineState × List Event × List Str :=
  if c.state == str "running" then
    let cid := shortId c.id
    let running := acc.2.2 ++ [cid]
    let r :=
      if hasRecordsFor acc.1 cid then (acc.1, ([] : List Event))
      else createDNSRecordsForContainer cfg co acc.1 c
    (cancelPending r.1 cid, acc.2.1 ++ r.2, running)
  else acc

/-- The loop body of the second loop of `monitorContainers`: schedule
deletion for a managed record whose owner is not running and not pending. -/
def spStep (running : List Str) (acc : EngineState × List Event)
    (p : Str × ManagedRecord) : EngineState × List Event :=
  if !(running.contains p.2.containerId) && !(pendingHas acc.1 p.2.containerId) then
    let r := scheduleRecordDeletion acc.1 p.2.containerId
    (r.1, acc.2 ++ r.2)
  else acc

/-- The second loop of `monitorContainers`: for every managed record whose
owner is not running and has no pending deletion yet, schedule deletion. -/
def schedulePass (s : EngineState) (running : List Str) : EngineState × List Event :=
  s.managedRecords.foldl (spStep running) (s, [])

/-- One tick of `monitorContainers`, given the container listing returned by
`docker.listContainers({all: true})`: process the containers in order, then
run the deletion-scheduling pass over the managed records. -/
def tick (cfg : Config) (co : CreateOracle) (listing : List ContainerInfo)
    (s : EngineState) : EngineState × List Event :=
  let phase1 := listing.foldl (tickContainerStep cfg co) (s, [], [])
  let phase2 := schedulePass phase1.1 phase1.2.2
  (phase2.1, phase1.2.1 ++ phase2.2)

/-- The body of `monitorContainers` before its surrounding `try`/`catch`:
`docker.listContainers` either throws (`none`) or yields a listing. -/
def monitorContainersBody (cfg : Config) (co : CreateOracle)
    (listing? : Option (List ContainerInfo)) (s : EngineState) :
    Except Str (EngineState × List Event) :=
  match listing? with
  | none => Except.error (str "Error monitoring containers")
  | some l => Except.ok (tick cfg co l s)

/-- `monitorContainers()`: the whole body is wrapped in `try`/`catch`; every
error is caught, logged, and swallowed, so the function always resolves
normally, leaving the tables untouched when the listing failed. -/
def monitorContainers (cfg : Config) (co : CreateOracle)
    (listing? : Option (List ContainerInfo)) (s : EngineState) :
    EngineState × List Event :=
  match monitorContainersBody cfg co listing? s with
  | Except.ok r => r
  | Except.error _ => (s, [])

/-- The `POST /api/sync` handler: `await monitorContainers()` then reply 200
`Sync completed`; the `catch` branch replying 500 is only reachable if
`monitorContainers` rejects — which it never does, since it catches all its
errors internally.  The result pairs the engine outcome with the HTTP status. -/
def syncHandler (cfg : Config) (co : CreateOracle)
    (listing? : Option (List ContainerInfo)) (s : EngineState) :
    (EngineState × List Event) × Nat :=
  (monitorContainers cfg co listing? s, 200)

/-- One iteration of the timer callback armed by `scheduleRecordDeletion`:
call `simplyAPI.deleteRecord` for one owned record, remove it from the
table exactly when the call succeeded (a failure is logged and the record
kept). -/
def fireStep (delo : DeleteOracle) (acc : EngineState × List Event)
    (p : Str × ManagedRecord) : EngineState × List Event :=
  if delo p.2.domain p.2.recordId then
    ({ acc.1 with managedRecords := mapDelete acc.1.managedRecords p.1 },
     acc.2 ++ [Event.deleteCall p.2.domain p.2.recordId true])
  else (acc.1, acc.2 ++ [Event.deleteCall p.2.domain p.2.recordId false])

/-- The `setTimeout` callback armed by `scheduleRecordDeletion(containerId)`:
collect the managed records owned by the container, fold `fireStep` over
them, and finally remove the pending-deletion entry unconditionally. -/
def deletionTimerFires (delo : DeleteOracle) (cid : Str) (s : EngineState) :
    EngineState × List Event :=
  let recordsToDelete := s.managedRecords.filter (fun p => p.2.containerId == cid)
  let r := recordsToDelete.foldl (fireStep delo) (s, [])
  ({ r.1 with pending := mapDelete r.1.pending cid }, r.2)

/-- The engine states reachable from process start: the initial empty tables,
closed under running a tick (with any listing and registrar behaviour) and
under an armed deletion timer firing. -/
inductive Reach (cfg : Config) : EngineState → Prop
  | init : Reach cfg initialState
  | step_tick (co : CreateOracle) (listing : List ContainerInfo) {s : EngineState} :
      Reach cfg s → Reach cfg (tick cfg co listing s).1
  | step_fire (delo : DeleteOracle) (cid : Str) {s : EngineState} :
      Reach cfg s → pendingHas s cid = true →
      Reach cfg (deletionTimerFires delo cid s).1

/-- The JSON replied by `GET /api/health` (the fields the claims speak
about), together with the HTTP status of the reply. -/
structure HealthResponse where
  httpStatus : Nat
  status : Str
  pollInterval : Nat
  deleteDelay : Nat
  hasCredentials : Bool
deriving DecidableEq, Repr

/-- The `GET /api/health` handler: an unconditional 200 `healthy` reply whose
`hasCredentials` is the truthiness of `config.accountName && config.apiKey`
(both strings non-empty).  The handler reads only `config`; it consults
neither the registrar, nor the container runtime, nor the two tables. -/
def healthHandler (cfg : Config) : HealthResponse :=
  { httpStatus := 200
    status := str "healthy"
    pollInterval := cfg.pollInterval
    deleteDelay := cfg.deleteDelay
    hasCredentials := cfg.accountName != [] && cfg.apiKey != [] }

/-- Does a create event report success?  (Non-create events count as `true`.) -/
def createOk : Event → Bool
  | Event.createCall _ _ _ _ ok _ => ok
  | _ => true

/-- Is this event a registrar create call? -/
def isCreateEvent : Event → Bool
  | Event.createCall _ _ _ _ _ _ => true
  | _ => false

/-- A hostname the per-host loop of `createDNSRecordsForContainer` skips
without any registrar call: fewer than two dot-separated parts, or an empty
subdomain after dropping the last two parts. -/
def hostSkipped (host : Str) : Bool :=
  let parts := host.splitOn '.'
  parts.length < 2 || List.intercalate ['.'] (parts.take (parts.length - 2)) == []

/-- A container on which `createDNSRecordsForContainer` is a no-op issuing no
registrar call: `traefik.enable` not exactly `true`, no extracted hosts, or
every extracted host skipped. -/
def containerInert (c : ContainerInfo) : Bool :=
  lookupLabel c.labels (str "traefik.enable") != some (str "true")
  || extractTraefikHosts c.labels == []
  || (extractTraefikHosts c.labels).all hostSkipped

/-- The running-id set a tick derives from a listing. -/
def runningIdsOf (listing : List ContainerInfo) : List Str :=
  listing.filterMap (fun c => if c.state == str "running" then some (shortId c.id) else none)

/-! ### Event-loop interleaving model

`monitorContainers` runs on Node's single-threaded event loop, but both the
interval timer and the `POST /api/sync` handler invoke it, and it `await`s
between reading and writing the shared tables (`await container.inspect()`
inside `createDNSRecordsForContainer`, and `await simplyAPI.createCNAMERecord`
between the `hasRecords` check and `managedRecords.set`).  At every `await`
the event loop may run a segment of the other invocation.  The following
machine embeds one `monitorContainers` execution over a one-container
listing as its sequence of synchronous segments, cut at those `await`
points; containers declaring more than one host are beyond the scope of the
machine (only the first extracted host is raced), which suffices for the
single-host scenarios of the spec.  Treating the post-create tail (pending
cancellation and the scheduling pass) as one segment only removes
interleavings, so every trace of this machine is a trace of the source. -/

/-- The synchronous tail of a one-container tick once its container's
create work finished: cancel the container's pending deletion, then run the
deletion-scheduling pass with the running set derived from the listing. -/
def finishTick (s : EngineState) (cid : Str) : EngineState × List Event :=
  schedulePass (cancelPending s cid) [cid]

/-- Where one `monitorContainers` invocation stands between `await` points:
not yet past the listing, about to inspect, waiting for the create call of
the given prospective record to resolve, or done. -/
inductive TickCtl where
  | ready
  | inspecting
  | awaitingCreate (pend : Option (Str × ManagedRecord))
  | finished
deriving DecidableEq, Repr

/-- One synchronous segment of a `monitorContainers` invocation over the
one-container listing `[c]`.
* `ready` (the listing resolved): skip a non-running container straight to
  the scheduling pass; for a running one, check `hasRecordsFor` — when
  records exist the invocation completes synchronously, otherwise it calls
  `container.inspect()` and suspends.
* `inspecting` (inspect resolved): apply the `traefik.enable` gate and the
  host extraction; when a create call is issued the invocation suspends
  until the registrar answers, remembering the record to store.
* `awaitingCreate` (the registrar answered): store the record on success,
  then run the tail of the tick. -/
def tickSeg (cfg : Config) (co : CreateOracle) (c : ContainerInfo) :
    TickCtl → EngineState → TickCtl × EngineState × List Event
  | TickCtl.ready, s =>
    if c.state == str "running" then
      let cid := shortId c.id
      if hasRecordsFor s cid then
        let r := finishTick s cid
        (TickCtl.finished, r.1, r.2)
      else (TickCtl.inspecting, s, [])
    else
      let r := schedulePass s []
      (TickCtl.finished, r.1, r.2)
  | TickCtl.inspecting, s =>
    let cid := shortId c.id
    if lookupLabel c.labels (str "traefik.enable") != some (str "true") then
      let r := finishTick s cid
      (TickCtl.finished, r.1, r.2)
    else
      match extractTraefikHosts c.labels with
      | [] =>
        let r := finishTick s cid
        (TickCtl.finished, r.1, r.2)
      | host :: _ =>
        match issueCreate cfg co cid host with
        | none =>
          let r := finishTick s cid
          (TickCtl.finished, r.1, r.2)
        | some (ev, pend) => (TickCtl.awaitingCreate pend, s, [ev])
  | TickCtl.awaitingCreate pend, s =>
    let cid := shortId c.id
    let s1 := match pend with
      | some (k, r) => { s with managedRecords := mapSet s.managedRecords k r }
      | none => s
    let r := finishTick s1 cid
    (TickCtl.finished, r.1, r.2)
  | TickCtl.finished, s => (TickCtl.finished, s, [])

/-- Shared state of two in-flight `monitorContainers` invocations (A: the
interval tick, B: the on-demand sync) plus the common call log. -/
structure RaceState where
  engine : EngineState
  ctlA : TickCtl
  ctlB : TickCtl
  log : List Event
deriving DecidableEq, Repr

/-- Run one segment of invocation A (`true`) or B (`false`). -/
def raceStep (cfg : Config) (co : CreateOracle) (c : ContainerInfo)
    (rs : RaceState) (pickA : Bool) : RaceState :=
  if pickA then
    let r := tickSeg cfg co c rs.ctlA rs.engine
    { engine := r.2.1, ctlA := r.1, ctlB := rs.ctlB, log := rs.log ++ r.2.2 }
  else
    let r := tickSeg cfg co c rs.ctlB rs.engine
    { engine := r.2.1, ctlA := rs.ctlA, ctlB := r.1, log := rs.log ++ r.2.2 }

/-- Interleave two invocations over the same one-container listing according
to a schedule of segment picks, starting with both at the listing boundary. -/
def raceRun (cfg : Config) (co : CreateOracle) (c : ContainerInfo)
    (picks : List Bool) (s0 : EngineState) : RaceState :=
  picks.foldl (raceStep cfg co c) ⟨s0, TickCtl.ready, TickCtl.ready, []⟩

/-! ### Concrete fixtures used by counterexamples and witnesses -/

/-- A configuration with credentials and a target domain set. -/
def demoConfig : Config :=
  ⟨str "S123456", str "apikey", 300, 30, 3000, str "your-server.com"⟩

/-- A registrar that accepts every create call, returning record id 7. -/
def acceptAll : CreateOracle := fun _ _ _ => some 7

/-- A registrar that rejects every create call. -/
def rejectAll : CreateOracle := fun _ _ _ => none

/-- The §8 scenario container: enablement label plus a backtick-quoted
router rule for `app.example.com`. -/
def demoContainerBacktick : ContainerInfo :=
  ⟨str "c1c1c1c1c1c1c1c1", str "running",
   [(str "traefik.enable", str "true"),
    (str "traefik.http.routers.app.rule", str "Host(`app.example.com`)")]⟩

/-- The same container with the bare (unquoted) rule form, which yields a
single extracted host. -/
def demoContainerBare : ContainerInfo :=
  ⟨str "c1c1c1c1c1c1c1c1", str "running",
   [(str "traefik.enable", str "true"),
    (str "traefik.http.routers.app.rule", str "Host(app.example.com)")]⟩

/-- A container with a router rule but no `traefik.enable` label. -/
def noEnableContainer : ContainerInfo :=
  ⟨str "e3e3e3e3e3e3e3e3", str "running",
   [(str "traefik.http.routers.web.rule", str "Host(a.b.com)")]⟩

/-- A record table with two records owned by one container and a third owned
by another, the first container having an armed deletion timer. -/
def fireDemoState : EngineState :=
  ⟨[(str "c1c1c1c1c1c1-a.example.com",
     ⟨1, str "a.example.com", str "example.com", str "a", str "c1c1c1c1c1c1"⟩),
    (str "c1c1c1c1c1c1-b.example.com",
     ⟨2, str "b.example.com", str "example.com", str "b", str "c1c1c1c1c1c1"⟩),
    (str "d2d2d2d2d2d2-c.example.com",
     ⟨3, str "c.example.com", str "example.com", str "c", str "d2d2d2d2d2d2"⟩)],
   [(str "c1c1c1c1c1c1", 0)], 1⟩

/-- A registrar that deletes record 1 successfully and fails on the rest. -/
def deleteOnly1 : DeleteOracle := fun _ rid => rid == 1

/-! ## Theorems -/

/-! ### Helper lemmas about the map embedding -/

theorem mapDelete_any_key {β : Type} (m : List (Str × β)) (k : Str) :
    (mapDelete m k).any (fun p => p.1 == k) = false := by
  rw [Bool.eq_false_iff]
  intro h
  rcases List.any_eq_true.mp h with ⟨p, hp, hk⟩
  rcases List.mem_filter.mp hp with ⟨_, hne⟩
  simp [hk] at hne

theorem map_id_of_eq {α : Type} (l : List α) (f : α → α) (h : ∀ a ∈ l, f a = a) :
    l.map f = l := by
  induction l with
  | nil => rfl
  | cons a t ih =>
    rw [List.map_cons, h a (List.mem_cons_self a t),
      ih (fun x hx => h x (List.mem_cons_of_mem _ hx))]

theorem mapSet_cons_ne {β : Type} (a : Str × β) (t : List (Str × β)) (k : Str) (v : β)
    (hak : (a.1 == k) = false) : mapSet (a :: t) k v = a :: mapSet t k v := by
  unfold mapSet
  rw [List.any_cons, hak, Bool.false_or]
  by_cases ht : t.any (fun p => p.1 == k) = true
  · simp only [ht, if_true, List.map_cons, hak]
    rw [if_neg (by simp [hak])]
  · rw [Bool.not_eq_true] at ht
    simp only [ht, Bool.false_eq_true, if_false, List.cons_append]

theorem mapSet_cons_eq {β : Type} (a : Str × β) (t : List (Str × β)) (k : Str) (v : β)
    (hak : (a.1 == k) = true) (ht : ∀ q ∈ t, (q.1 == k) = false) :
    mapSet (a :: t) k v = (k, v) :: t := by
  unfold mapSet
  rw [List.any_cons, hak, Bool.true_or, if_pos rfl, List.map_cons, if_pos hak]
  congr 1
  exact map_id_of_eq t _ (fun q hq => by rw [ht q hq]; rfl)

theorem mapSet_any_key_of {β : Type} (m : List (Str × β)) (k : Str) (v : β)
    (P : Str → Bool) (hPk : P k = true) :
    (mapSet m k v).any (fun p => P p.1) = true := by
  unfold mapSet
  by_cases h : m.any (fun p => p.1 == k) = true
  · simp only [h, if_true]
    rcases List.any_eq_true.mp h with ⟨p, hp, hpk⟩
    refine List.any_eq_true.mpr ⟨(k, v), ?_, hPk⟩
    refine List.mem_map.mpr ⟨p, hp, ?_⟩
    simp [hpk]
  · simp only [h]
    refine List.any_eq_true.mpr ⟨(k, v), ?_, hPk⟩
    simp

theorem mapSet_any_key_mono {β : Type} (m : List (Str × β)) (k : Str) (v : β)
    (P : Str → Bool) (h : m.any (fun p => P p.1) = true) :
    (mapSet m k v).any (fun p => P p.1) = true := by
  unfold mapSet
  by_cases hk : m.any (fun p => p.1 == k) = true
  · simp only [hk, if_true]
    rcases List.any_eq_true.mp h with ⟨p, hp, hPp⟩
    refine List.any_eq_true.mpr ⟨if p.1 == k then (k, v) else p, List.mem_map.mpr ⟨p, hp, rfl⟩, ?_⟩
    by_cases hpk : p.1 == k
    · have : p.1 = k := eq_of_beq hpk
      simp [hpk, ← this, hPp]
    · simp [hpk, hPp]
  · simp only [hk]
    rcases List.any_eq_true.mp h with ⟨p, hp, hPp⟩
    exact List.any_eq_true.mpr ⟨p, List.mem_append_left _ hp, hPp⟩

theorem mapSet_any_key_of_ne {β : Type} (m : List (Str × β)) (k : Str) (v : β)
    (x : Str) (hne : k ≠ x) (h : m.any (fun p => p.1 == x) = false) :
    (mapSet m k v).any (fun p => p.1 == x) = false := by
  unfold mapSet
  by_cases hk : m.any (fun p => p.1 == k) = true
  · simp only [hk, if_true]
    rw [Bool.eq_false_iff]
    intro hc
    rcases List.any_eq_true.mp hc with ⟨q, hq, hqx⟩
    rcases List.mem_map.mp hq with ⟨p, hp, hfp⟩
    rw [Bool.eq_false_iff] at h
    apply h
    refine List.any_eq_true.mpr ⟨p, hp, ?_⟩
    by_cases hpk : p.1 == k
    · exfalso
      apply hne
      have : (k, v) = q := by simpa [hpk] using hfp
      have : q.1 = k := by rw [← this]
      rw [← this]
      exact eq_of_beq hqx
    · rw [show p = q by simpa [hpk] using hfp]
      exact hqx
  · simp only [hk]
    rw [Bool.eq_false_iff]
    intro hc
    rcases List.any_eq_true.mp hc with ⟨q, hq, hqx⟩
    rcases List.mem_append.mp hq with hq | hq
    · rw [Bool.eq_false_iff] at h
      exact h (List.any_eq_true.mpr ⟨q, hq, hqx⟩)
    · have : q = (k, v) := by simpa using hq
      apply hne
      rw [← show q.1 = k by rw [this]]
      exact eq_of_beq hqx

theorem key_inj {β : Type} {m : List (Str × β)} (h : (m.map Prod.fst).Nodup)
    {p q : Str × β} (hp : p ∈ m) (hq : q ∈ m) (hk : p.1 = q.1) : p = q := by
  induction m with
  | nil => cases hp
  | cons a t ih =>
    simp only [List.map_cons, List.nodup_cons] at h
    rcases List.mem_cons.mp hp with hp1 | hp1 <;> rcases List.mem_cons.mp hq with hq1 | hq1
    · rw [hp1, hq1]
    · exfalso
      exact h.1 (List.mem_map.mpr ⟨q, hq1, by rw [← hk, hp1]⟩)
    · exfalso
      exact h.1 (List.mem_map.mpr ⟨p, hp1, by rw [hk, hq1]⟩)
    · exact ih h.2 hp1 hq1

theorem mapSet_filter_key {β : Type} (m : List (Str × β)) (k : Str) (v : β)
    (h : (m.map Prod.fst).Nodup) :
    (mapSet m k v).filter (fun p => p.1 == k) = [(k, v)] := by
  induction m with
  | nil =>
    simp [mapSet]
  | cons a t ih =>
    simp only [List.map_cons, List.nodup_cons] at h
    by_cases hak : (a.1 == k) = true
    · have hknot : ∀ q ∈ t, (q.1 == k) = false := by
        intro q hq
        rw [Bool.eq_false_iff]
        intro hc
        exact h.1 (List.mem_map.mpr ⟨q, hq, by rw [eq_of_beq hc, ← eq_of_beq hak]⟩)
      rw [mapSet_cons_eq a t k v hak hknot, List.filter_cons, if_pos (by simp)]
      have : t.filter (fun p => p.1 == k) = [] := by
        apply List.filter_eq_nil_iff.mpr
        intro q hq
        simp [hknot q hq]
      rw [this]
    · rw [Bool.not_eq_true] at hak
      rw [mapSet_cons_ne a t k v hak, List.filter_cons, if_neg (by simp [hak])]
      exact ih h.2

theorem keys_map_set {β : Type} (m : List (Str × β)) (k : Str) (v : β) :
    ((m.map (fun p => if p.1 == k then (k, v) else p)).map Prod.fst) = m.map Prod.fst := by
  rw [List.map_map]
  apply List.map_congr_left
  intro p _
  by_cases hpk : (p.1 == k) = true
  · simp [Function.comp, hpk, eq_of_beq hpk]
  · simp [Function.comp, hpk]

theorem mapSet_keys_mem {β : Type} (m : List (Str × β)) (k : Str) (v : β)
    (x : Str) (hx : x ∈ (mapSet m k v).map Prod.fst) :
    x ∈ m.map Prod.fst ∨ x = k := by
  unfold mapSet at hx
  by_cases hk : m.any (fun p => p.1 == k) = true
  · rw [if_pos hk, keys_map_set] at hx
    exact Or.inl hx
  · rw [if_neg hk, List.map_append] at hx
    rcases List.mem_append.mp hx with h1 | h1
    · exact Or.inl h1
    · right
      simpa using h1

theorem mapSet_keys_nodup {β : Type} (m : List (Str × β)) (k : Str) (v : β)
    (h : (m.map Prod.fst).Nodup) : ((mapSet m k v).map Prod.fst).Nodup := by
  induction m with
  | nil =>
    simp [mapSet]
  | cons a t ih =>
    simp only [List.map_cons, List.nodup_cons] at h
    by_cases hak : (a.1 == k) = true
    · have hknot : ∀ q ∈ t, (q.1 == k) = false := by
        intro q hq
        rw [Bool.eq_false_iff]
        intro hc
        exact h.1 (List.mem_map.mpr ⟨q, hq, by rw [eq_of_beq hc, ← eq_of_beq hak]⟩)
      rw [mapSet_cons_eq a t k v hak hknot, List.map_cons, List.nodup_cons]
      refine ⟨?_, h.2⟩
      rw [← eq_of_beq hak]
      exact h.1
    · rw [Bool.not_eq_true] at hak
      rw [mapSet_cons_ne a t k v hak, List.map_cons, List.nodup_cons]
      refine ⟨?_, ih h.2⟩
      intro hc
      rcases mapSet_keys_mem t k v a.1 hc with h1 | h1
      · exact h.1 h1
      · rw [h1] at hak
        simp at hak

theorem mapDelete_keys_nodup {β : Type} (m : List (Str × β)) (k : Str)
    (h : (m.map Prod.fst).Nodup) : ((mapDelete m k).map Prod.fst).Nodup := by
  exact ((List.filter_sublist m).map Prod.fst).nodup h

/-! ### Per-host creation lemmas -/

theorem intercalate_nil_dot : List.intercalate ['.'] ([] : List Str) = [] := rfl

theorem issueCreate_of_skipped (cfg : Config) (co : CreateOracle) (cid host : Str)
    (h : hostSkipped host = true) : issueCreate cfg co cid host = none := by
  by_cases h2 : (host.splitOn '.').length < 2
  · simp [issueCreate, h2]
  · have h3 : (List.intercalate ['.']
        ((host.splitOn '.').take ((host.splitOn '.').length - 2)) == []) = true := by
      unfold hostSkipped at h
      simp only [Bool.or_eq_true, decide_eq_true_eq] at h
      rcases h with hh | hh
      · exact absurd hh h2
      · exact hh
    simp [issueCreate, h2, h3]

theorem createForHost_of_skipped (cfg : Config) (co : CreateOracle) (cid : Str)
    (s : EngineState) (host : Str) (h : hostSkipped host = true) :
    createForHost cfg co cid s host = (s, []) := by
  unfold createForHost
  rw [issueCreate_of_skipped cfg co cid host h]

theorem hostSkipped_of_short (host : Str) (h : (host.splitOn '.').length < 3) :
    hostSkipped host = true := by
  unfold hostSkipped
  by_cases h2 : (host.splitOn '.').length < 2
  · simp [h2]
  · have he : (host.splitOn '.').length - 2 = 0 := by omega
    simp [he, intercalate_nil_dot]

/-- C7: hostname splitting.  Every hostname whose dot-split has fewer than
three parts is skipped by the per-host loop with no registrar call and no
table change (a one-part host fails the length guard, a two-part host has an
empty subdomain); and every create call the loop issues carries exactly the
split mandated by the spec: the domain is the last two dot-separated labels
joined by `.`, the subdomain is the remaining leading labels joined by `.`
and is non-empty, which forces at least three labels. -/
theorem hostname_splitting (cfg : Config) (co : CreateOracle) (cid : Str)
    (s : EngineState) (host : Str) :
    ((host.splitOn '.').length < 3 → createForHost cfg co cid s host = (s, []))
    ∧ (∀ d n t ttl ok h,
        Event.createCall d n t ttl ok h ∈ (createForHost cfg co cid s host).2 →
        h = host
        ∧ d = List.intercalate ['.'] ((host.splitOn '.').drop ((host.splitOn '.').length - 2))
        ∧ n = List.intercalate ['.'] ((host.splitOn '.').take ((host.splitOn '.').length - 2))
        ∧ n ≠ [] ∧ 3 ≤ (host.splitOn '.').length) := by
  constructor
  · intro hlt
    exact createForHost_of_skipped cfg co cid s host (hostSkipped_of_short host hlt)
  · intro d n t ttl ok h hmem
    by_cases h2 : (host.splitOn '.').length < 2
    · simp [createForHost, issueCreate, h2] at hmem
    · by_cases h3 : (List.intercalate ['.']
          ((host.splitOn '.').take ((host.splitOn '.').length - 2)) == []) = true
      · simp [createForHost, issueCreate, h2, h3] at hmem
      · have hsubne : List.intercalate ['.']
            ((host.splitOn '.').take ((host.splitOn '.').length - 2)) ≠ [] := by
          intro hc
          exact h3 (by simp [hc])
        have hlen : 3 ≤ (host.splitOn '.').length := by
          rcases Nat.lt_or_ge (host.splitOn '.').length 3 with hl | hl
          · exfalso
            apply hsubne
            have he : (host.splitOn '.').length - 2 = 0 := by omega
            simp [he, intercalate_nil_dot]
          · exact hl
        cases hco : co
            (List.intercalate ['.'] ((host.splitOn '.').drop ((host.splitOn '.').length - 2)))
            (List.intercalate ['.'] ((host.splitOn '.').take ((host.splitOn '.').length - 2)))
            (if cfg.targetDomain != [] then cfg.targetDomain else host) with
        | some rid =>
          simp only [createForHost, issueCreate, if_neg h2, h3, Bool.false_eq_true, if_false,
            hco] at hmem
          simp only [List.mem_singleton, Event.createCall.injEq] at hmem
          obtain ⟨hd, hn, ht, httl, hok, hh⟩ := hmem
          exact ⟨hh, hd, hn, hn ▸ hsubne, hlen⟩
        | none =>
          simp only [createForHost, issueCreate, if_neg h2, h3, Bool.false_eq_true, if_false,
            hco] at hmem
          simp only [List.mem_singleton, Event.createCall.injEq] at hmem
          obtain ⟨hd, hn, ht, httl, hok, hh⟩ := hmem
          exact ⟨hh, hd, hn, hn ▸ hsubne, hlen⟩

/-! ### Deletion-timer fold lemmas -/

theorem fireStep_pos (delo : DeleteOracle) (acc : EngineState × List Event)
    (p : Str × ManagedRecord) (hd : delo p.2.domain p.2.recordId = true) :
    fireStep delo acc p
      = ({ acc.1 with managedRecords := mapDelete acc.1.managedRecords p.1 },
         acc.2 ++ [Event.deleteCall p.2.domain p.2.recordId true]) := by
  unfold fireStep
  rw [if_pos hd]

theorem fireStep_neg (delo : DeleteOracle) (acc : EngineState × List Event)
    (p : Str × ManagedRecord) (hd : delo p.2.domain p.2.recordId = false) :
    fireStep delo acc p
      = (acc.1, acc.2 ++ [Event.deleteCall p.2.domain p.2.recordId false]) := by
  unfold fireStep
  rw [if_neg (by simp [hd])]

theorem fire_fold_log (delo : DeleteOracle) (l : List (Str × ManagedRecord))
    (s0 : EngineState) (ev0 : List Event) :
    (l.foldl
      (fireStep delo)
      (s0, ev0)).2
    = ev0 ++ l.map (fun p => Event.deleteCall p.2.domain p.2.recordId
        (delo p.2.domain p.2.recordId)) := by
  induction l generalizing s0 ev0 with
  | nil => simp
  | cons p t ih =>
    rw [List.foldl_cons, List.map_cons]
    by_cases hd : delo p.2.domain p.2.recordId = true
    · rw [fireStep_pos delo _ p hd, ih, hd]
      simp
    · rw [Bool.not_eq_true] at hd
      rw [fireStep_neg delo _ p hd, ih, hd]
      simp

theorem fire_fold_pending (delo : DeleteOracle) (l : List (Str × ManagedRecord))
    (s0 : EngineState) (ev0 : List Event) :
    ((l.foldl
      (fireStep delo)
      (s0, ev0)).1).pending = s0.pending
    ∧ ((l.foldl
      (fireStep delo)
      (s0, ev0)).1).nextTimer = s0.nextTimer := by
  induction l generalizing s0 ev0 with
  | nil => exact ⟨rfl, rfl⟩
  | cons p t ih =>
    rw [List.foldl_cons]
    by_cases hd : delo p.2.domain p.2.recordId = true
    · rw [fireStep_pos delo _ p hd]
      exact ih _ _
    · rw [Bool.not_eq_true] at hd
      rw [fireStep_neg delo _ p hd]
      exact ih _ _

theorem fire_fold_records (delo : DeleteOracle) (l : List (Str × ManagedRecord))
    (s0 : EngineState) (ev0 : List Event) :
    ((l.foldl
      (fireStep delo)
      (s0, ev0)).1).managedRecords
    = s0.managedRecords.filter
        (fun q => !((l.filter (fun p => delo p.2.domain p.2.recordId)).any
          (fun p => q.1 == p.1))) := by
  induction l generalizing s0 ev0 with
  | nil => simp
  | cons p t ih =>
    rw [List.foldl_cons, List.filter_cons]
    by_cases hd : delo p.2.domain p.2.recordId = true
    · rw [fireStep_pos delo _ p hd, if_pos hd, ih]
      show (mapDelete s0.managedRecords p.1).filter _ = _
      rw [show mapDelete s0.managedRecords p.1
          = s0.managedRecords.filter (fun q => !(q.1 == p.1)) from rfl]
      rw [List.filter_filter]
      apply List.filter_congr
      intro q _
      rw [List.any_cons]
      rw [Bool.not_or, Bool.and_comm]
    · rw [Bool.not_eq_true] at hd
      rw [fireStep_neg delo _ p hd, if_neg (by simp [hd]), ih]

/-- C6: when a pending deletion fires, a delete call is issued for every
managed record owned by the container; the surviving record table is exactly
the old one with the owned records whose delete succeeded removed (a record
is removed if and only if its delete call succeeded); and the pending entry
of the container is removed unconditionally, whatever the per-record
outcomes were. -/
theorem deletion_firing_semantics (delo : DeleteOracle) (cid : Str) (s : EngineState)
    (hnodup : (s.managedRecords.map Prod.fst).Nodup) :
    (∀ p ∈ s.managedRecords, p.2.containerId = cid →
        Event.deleteCall p.2.domain p.2.recordId (delo p.2.domain p.2.recordId)
          ∈ (deletionTimerFires delo cid s).2)
    ∧ (deletionTimerFires delo cid s).1.managedRecords
        = s.managedRecords.filter
            (fun p => !(p.2.containerId == cid && delo p.2.domain p.2.recordId))
    ∧ (deletionTimerFires delo cid s).1.pending = mapDelete s.pending cid
    ∧ pendingHas (deletionTimerFires delo cid s).1 cid = false := by
  have hlog := fire_fold_log delo
    (s.managedRecords.filter (fun p => p.2.containerId == cid)) s []
  have hpend := fire_fold_pending delo
    (s.managedRecords.filter (fun p => p.2.containerId == cid)) s []
  have hrec := fire_fold_records delo
    (s.managedRecords.filter (fun p => p.2.containerId == cid)) s []
  refine ⟨?_, ?_, ?_, ?_⟩
  · intro p hp howner
    show _ ∈ (deletionTimerFires delo cid s).2
    unfold deletionTimerFires
    rw [hlog]
    simp only [List.nil_append]
    refine List.mem_map.mpr ⟨p, ?_, rfl⟩
    exact List.mem_filter.mpr ⟨hp, by simp [howner]⟩
  · show ((deletionTimerFires delo cid s).1).managedRecords = _
    unfold deletionTimerFires
    simp only
    rw [hrec]
    apply List.filter_congr
    intro q hq
    congr 1
    rw [List.filter_filter]
    by_cases hqo : (q.2.containerId == cid && delo q.2.domain q.2.recordId) = true
    · rw [hqo]
      rw [Bool.and_comm] at hqo
      refine List.any_eq_true.mpr ⟨q, List.mem_filter.mpr ⟨hq, hqo⟩, by simp⟩
    · rw [Bool.not_eq_true] at hqo
      rw [hqo]
      rw [Bool.eq_false_iff]
      intro hc
      rcases List.any_eq_true.mp hc with ⟨p, hpmem, hqp⟩
      rcases List.mem_filter.mp hpmem with ⟨hpm, hcond⟩
      simp only [Bool.and_eq_true] at hcond
      obtain ⟨hD, howner⟩ := hcond
      have : q = p := key_inj hnodup hq hpm (eq_of_beq hqp)
      rw [← this] at hD howner
      rw [Bool.eq_false_iff] at hqo
      exact hqo (by simp only [Bool.and_eq_true]; exact ⟨howner, hD⟩)
  · unfold deletionTimerFires
    simp only
    rw [hpend.1]
  · show ((deletionTimerFires delo cid s).1).pending.any _ = false
    unfold deletionTimerFires
    simp only
    rw [hpend.1]
    exact mapDelete_any_key _ _

/-- C2: the `POST /api/sync` handler replies 200 `Sync completed` even when
the container listing throws: `monitorContainers` catches every error of its
body internally and resolves normally with the tables untouched, so the
handler's 500 branch is unreachable and tick-level failure is never surfaced
to the caller (per-item create/delete failures, which only shape the event
log of a completed tick, are likewise never surfaced). -/
theorem sync_returns_ok_even_when_listing_fails (cfg : Config) (co : CreateOracle)
    (s : EngineState) : syncHandler cfg co none s = ((s, []), 200) := rfl

/-- C10: `GET /api/health` replies 200 with status `healthy` for every
configuration, and reports credentials exactly when both the account name
and the API key are non-empty; the handler is a function of the
configuration alone, so registrar reachability, runtime availability and
the two tables cannot influence it. -/
theorem health_endpoint_unconditional (cfg : Config) :
    (healthHandler cfg).httpStatus = 200
    ∧ (healthHandler cfg).status = str "healthy"
    ∧ ((healthHandler cfg).hasCredentials = true
        ↔ (cfg.accountName ≠ [] ∧ cfg.apiKey ≠ [])) := by
  refine ⟨rfl, rfl, ?_⟩
  simp [healthHandler]

theorem health_endpoint_unconditional_witness :
    (healthHandler demoConfig).httpStatus = 200
    ∧ (healthHandler demoConfig).status = str "healthy"
    ∧ ((healthHandler demoConfig).hasCredentials = true
        ↔ (demoConfig.accountName ≠ [] ∧ demoConfig.apiKey ≠ [])) :=
  health_endpoint_unconditional demoConfig

/-- C3: of the three quoting styles, only the double-quoted and the bare
form yield exactly `[a.b.com]`; the backtick form yields a second token
with the backticks left in place, because the bare-form regex also matches
the backtick-quoted rule and its quote stripping removes only single and
double quotes. -/
theorem extractTraefikHosts_quoting_styles :
    extractTraefikHosts [(str "traefik.enable", str "true"),
        (str "traefik.http.routers.web.rule", str "Host(\"a.b.com\")")]
      = [str "a.b.com"]
    ∧ extractTraefikHosts [(str "traefik.enable", str "true"),
        (str "traefik.http.routers.web.rule", str "Host(a.b.com)")]
      = [str "a.b.com"]
    ∧ extractTraefikHosts [(str "traefik.enable", str "true"),
        (str "traefik.http.routers.web.rule", str "Host(`a.b.com`)")]
      = [str "a.b.com", str "`a.b.com`"] := by
  refine ⟨by decide, by decide, by decide⟩

/-- C4 counterexample: the Label Parser itself does not gate on the
enablement label — on a label map with a router rule but no
`traefik.enable` at all it still returns a host, not the empty sequence
(the gate lives in `createDNSRecordsForContainer` instead). -/
theorem extractTraefikHosts_ignores_enable_gate :
    extractTraefikHosts [(str "traefik.http.routers.web.rule", str "Host(a.b.com)")]
      = [str "a.b.com"] := by decide

/-- C8: in the §8 scenario (one running container, enablement label, rule
`` Host(`app.example.com`) ``, target domain configured), the tick issues
TWO create calls, not one: the intended
`createCNAME("example.com","app","your-server.com",3600)` and a second,
backtick-mangled `createCNAME("example.com`","`app","your-server.com",3600)`
coming from the unstripped second extraction of the same rule; two managed
records are inserted.  The target of every call is the configured target
domain and the TTL is 3600. -/
theorem backtick_scenario_two_creates :
    (tick demoConfig acceptAll [demoContainerBacktick] initialState).2
      = [Event.createCall (str "example.com") (str "app")
           (str "your-server.com") 3600 true (str "app.example.com"),
         Event.createCall (str "example.com`") (str "`app")
           (str "your-server.com") 3600 true (str "`app.example.com`")]
    ∧ ((tick demoConfig acceptAll [demoContainerBacktick] initialState).1.managedRecords.map
        Prod.fst)
      = [str "c1c1c1c1c1c1-app.example.com", str "c1c1c1c1c1c1-`app.example.com`"] := by
  refine ⟨by decide, by decide⟩

/-- C1 counterexample: a second tick over an unchanged listing is not
always free of registrar calls.  When the registrar rejected the create of
the first tick, no record was stored, so the second tick re-issues the very
same create call. -/
theorem tick_second_run_retries_failed_create :
    (tick demoConfig rejectAll [demoContainerBare]
        (tick demoConfig rejectAll [demoContainerBare] initialState).1).2
      = [Event.createCall (str "example.com") (str "app")
           (str "your-server.com") 3600 false (str "app.example.com")] := by decide

theorem hostname_splitting_witness :
    ((str "example.com").splitOn '.').length < 3
    ∧ createForHost demoConfig acceptAll (str "c1c1c1c1c1c1") initialState
        (str "example.com") = (initialState, []) :=
  ⟨by decide, (hostname_splitting demoConfig acceptAll (str "c1c1c1c1c1c1")
      initialState (str "example.com")).1 (by decide)⟩

theorem deletion_firing_semantics_witness :
    (fireDemoState.managedRecords.map Prod.fst).Nodup
    ∧ (deletionTimerFires deleteOnly1 (str "c1c1c1c1c1c1") fireDemoState).1.managedRecords
        = fireDemoState.managedRecords.filter
            (fun p => !(p.2.containerId == str "c1c1c1c1c1c1"
              && deleteOnly1 p.2.domain p.2.recordId))
    ∧ pendingHas (deletionTimerFires deleteOnly1 (str "c1c1c1c1c1c1") fireDemoState).1
        (str "c1c1c1c1c1c1") = false :=
  ⟨by decide,
   (deletion_firing_semantics deleteOnly1 (str "c1c1c1c1c1c1") fireDemoState
     (by decide)).2.1,
   (deletion_firing_semantics deleteOnly1 (str "c1c1c1c1c1c1") fireDemoState
     (by decide)).2.2.2⟩

/-! ### State-effect lemmas for the per-container create work -/

theorem createForHost_pending (cfg : Config) (co : CreateOracle) (cid : Str)
    (s : EngineState) (host : Str) :
    ((createForHost cfg co cid s host).1).pending = s.pending
    ∧ ((createForHost cfg co cid s host).1).nextTimer = s.nextTimer := by
  rcases h : issueCreate cfg co cid host with _ | ⟨ev, _ | ⟨k, r⟩⟩ <;>
    simp [createForHost, h]

theorem createForHost_any_mono (cfg : Config) (co : CreateOracle) (cid : Str)
    (s : EngineState) (host : Str) (P : Str → Bool)
    (h : s.managedRecords.any (fun p => P p.1) = true) :
    ((createForHost cfg co cid s host).1).managedRecords.any (fun p => P p.1) = true := by
  rcases hic : issueCreate cfg co cid host with _ | ⟨ev, _ | ⟨k, r⟩⟩ <;>
    simp only [createForHost, hic]
  · exact h
  · exact h
  · exact mapSet_any_key_mono _ _ _ _ h

theorem hostStep_eq (cfg : Config) (co : CreateOracle) (cid : Str)
    (acc : EngineState × List Event) (host : Str) :
    hostStep cfg co cid acc host
      = ((createForHost cfg co cid acc.1 host).1,
         acc.2 ++ (createForHost cfg co cid acc.1 host).2) := rfl

theorem hostsFold_pending (cfg : Config) (co : CreateOracle) (cid : Str)
    (hosts : List Str) :
    ∀ (s : EngineState) (ev0 : List Event),
    ((hosts.foldl (hostStep cfg co cid) (s, ev0)).1).pending = s.pending
    ∧ ((hosts.foldl (hostStep cfg co cid) (s, ev0)).1).nextTimer = s.nextTimer := by
  induction hosts with
  | nil => exact fun s ev0 => ⟨rfl, rfl⟩
  | cons h t ih =>
    intro s ev0
    rw [List.foldl_cons, hostStep_eq]
    rcases ih (createForHost cfg co cid s h).1 (ev0 ++ (createForHost cfg co cid s h).2)
      with ⟨h1, h2⟩
    rw [h1, h2]
    exact createForHost_pending cfg co cid s h

theorem hostsFold_any_mono (cfg : Config) (co : CreateOracle) (cid : Str)
    (hosts : List Str) (P : Str → Bool) :
    ∀ (s : EngineState) (ev0 : List Event),
    s.managedRecords.any (fun p => P p.1) = true →
    ((hosts.foldl (hostStep cfg co cid) (s, ev0)).1).managedRecords.any
      (fun p => P p.1) = true := by
  induction hosts with
  | nil => exact fun s ev0 h => h
  | cons h t ih =>
    intro s ev0 hs
    rw [List.foldl_cons, hostStep_eq]
    exact ih _ _ (createForHost_any_mono cfg co cid s h P hs)

theorem hostsFold_log_append (cfg : Config) (co : CreateOracle) (cid : Str)
    (hosts : List Str) :
    ∀ (s : EngineState) (ev0 : List Event),
    ∃ tl, (hosts.foldl (hostStep cfg co cid) (s, ev0)).2 = ev0 ++ tl := by
  induction hosts with
  | nil => exact fun s ev0 => ⟨[], by simp⟩
  | cons h t ih =>
    intro s ev0
    rw [List.foldl_cons, hostStep_eq]
    rcases ih (createForHost cfg co cid s h).1 (ev0 ++ (createForHost cfg co cid s h).2)
      with ⟨tl, htl⟩
    exact ⟨(createForHost cfg co cid s h).2 ++ tl, by rw [htl, List.append_assoc]⟩

theorem createDNS_gate (cfg : Config) (co : CreateOracle) (s : EngineState)
    (c : ContainerInfo)
    (h : (lookupLabel c.labels (str "traefik.enable") != some (str "true")) = true) :
    createDNSRecordsForContainer cfg co s c = (s, []) := by
  unfold createDNSRecordsForContainer
  rw [if_pos h]

theorem createDNS_pending (cfg : Config) (co : CreateOracle) (s : EngineState)
    (c : ContainerInfo) :
    ((createDNSRecordsForContainer cfg co s c).1).pending = s.pending
    ∧ ((createDNSRecordsForContainer cfg co s c).1).nextTimer = s.nextTimer := by
  unfold createDNSRecordsForContainer
  by_cases h1 : (lookupLabel c.labels (str "traefik.enable") != some (str "true")) = true
  · rw [if_pos h1]
    exact ⟨rfl, rfl⟩
  · rw [if_neg h1]
    by_cases h2 : (extractTraefikHosts c.labels == []) = true
    · rw [if_pos h2]
      exact ⟨rfl, rfl⟩
    · rw [if_neg h2]
      exact hostsFold_pending cfg co (shortId c.id) (extractTraefikHosts c.labels) s []

theorem createDNS_any_mono (cfg : Config) (co : CreateOracle) (s : EngineState)
    (c : ContainerInfo) (P : Str → Bool)
    (h : s.managedRecords.any (fun p => P p.1) = true) :
    ((createDNSRecordsForContainer cfg co s c).1).managedRecords.any
      (fun p => P p.1) = true := by
  unfold createDNSRecordsForContainer
  by_cases h1 : (lookupLabel c.labels (str "traefik.enable") != some (str "true")) = true
  · rw [if_pos h1]
    exact h
  · rw [if_neg h1]
    by_cases h2 : (extractTraefikHosts c.labels == []) = true
    · rw [if_pos h2]
      exact h
    · rw [if_neg h2]
      exact hostsFold_any_mono cfg co (shortId c.id) (extractTraefikHosts c.labels) P s [] h

theorem isPrefixOf_key (cid host : Str) :
    cid.isPrefixOf (cid ++ str "-" ++ host) = true := by
  rw [List.isPrefixOf_iff_prefix, List.append_assoc]
  exact List.prefix_append _ _

theorem hostSkipped_false_parts (host : Str) (h : hostSkipped host = false) :
    ¬((host.splitOn '.').length < 2)
    ∧ (List.intercalate ['.']
        ((host.splitOn '.').take ((host.splitOn '.').length - 2)) == []) = false := by
  unfold hostSkipped at h
  simp only [Bool.or_eq_false_iff] at h
  refine ⟨?_, h.2⟩
  simpa using h.1

theorem createForHost_not_skipped_ok (cfg : Config) (co : CreateOracle) (cid : Str)
    (s : EngineState) (host : Str) (hns : hostSkipped host = false)
    (hok : ∀ e ∈ (createForHost cfg co cid s host).2, createOk e = true) :
    hasRecordsFor ((createForHost cfg co cid s host).1) cid = true := by
  obtain ⟨h2, h3⟩ := hostSkipped_false_parts host hns
  cases hco : co
      (List.intercalate ['.'] ((host.splitOn '.').drop ((host.splitOn '.').length - 2)))
      (List.intercalate ['.'] ((host.splitOn '.').take ((host.splitOn '.').length - 2)))
      (if cfg.targetDomain != [] then cfg.targetDomain else host) with
  | some rid =>
    show ((createForHost cfg co cid s host).1).managedRecords.any _ = true
    simp only [createForHost, issueCreate, if_neg h2, h3, Bool.false_eq_true, if_false, hco]
    exact mapSet_any_key_of _ _ _ _ (isPrefixOf_key cid host)
  | none =>
    exfalso
    have hmem : Event.createCall
        (List.intercalate ['.'] ((host.splitOn '.').drop ((host.splitOn '.').length - 2)))
        (List.intercalate ['.'] ((host.splitOn '.').take ((host.splitOn '.').length - 2)))
        (if cfg.targetDomain != [] then cfg.targetDomain else host) 3600 false host
        ∈ (createForHost cfg co cid s host).2 := by
      simp only [createForHost, issueCreate, if_neg h2, h3, Bool.false_eq_true, if_false, hco]
      exact List.mem_singleton.mpr rfl
    have := hok _ hmem
    simp [createOk] at this

theorem hostsFold_all_skipped (cfg : Config) (co : CreateOracle) (cid : Str)
    (hosts : List Str) :
    ∀ (s : EngineState) (ev0 : List Event),
    (∀ h ∈ hosts, hostSkipped h = true) →
    hosts.foldl (hostStep cfg co cid) (s, ev0) = (s, ev0) := by
  induction hosts with
  | nil => exact fun s ev0 _ => rfl
  | cons h t ih =>
    intro s ev0 hall
    rw [List.foldl_cons, hostStep_eq,
      createForHost_of_skipped cfg co cid s h (hall h (List.mem_cons_self h t))]
    show t.foldl (hostStep cfg co cid) (s, ev0 ++ []) = (s, ev0)
    rw [List.append_nil]
    exact ih s ev0 (fun h' hh' => hall h' (List.mem_cons_of_mem _ hh'))

theorem hostsFold_creates (cfg : Config) (co : CreateOracle) (cid : Str)
    (hosts : List Str) :
    ∀ (s : EngineState) (ev0 : List Event),
    (∃ h ∈ hosts, hostSkipped h = false) →
    (∀ e ∈ (hosts.foldl (hostStep cfg co cid) (s, ev0)).2, createOk e = true) →
    hasRecordsFor ((hosts.foldl (hostStep cfg co cid) (s, ev0)).1) cid = true := by
  induction hosts with
  | nil =>
    intro s ev0 hex _
    rcases hex with ⟨h, hh, _⟩
    cases hh
  | cons h t ih =>
    intro s ev0 hex hok
    rw [List.foldl_cons, hostStep_eq] at hok ⊢
    by_cases hsk : hostSkipped h = true
    · rw [createForHost_of_skipped cfg co cid s h hsk] at hok ⊢
      have hex' : ∃ h' ∈ t, hostSkipped h' = false := by
        rcases hex with ⟨h', hh', hns⟩
        rcases List.mem_cons.mp hh' with rfl | hmem
        · rw [hsk] at hns
          cases hns
        · exact ⟨h', hmem, hns⟩
      exact ih _ _ hex' hok
    · rw [Bool.not_eq_true] at hsk
      rcases hostsFold_log_append cfg co cid t (createForHost cfg co cid s h).1
          (ev0 ++ (createForHost cfg co cid s h).2) with ⟨tl, htl⟩
      have hokh : ∀ e ∈ (createForHost cfg co cid s h).2, createOk e = true := by
        intro e he
        apply hok
        rw [htl]
        exact List.mem_append_left _ (List.mem_append_right _ he)
      exact hostsFold_any_mono cfg co cid t _ _ _
        (createForHost_not_skipped_ok cfg co cid s h hsk hokh)

theorem containerInert_false_parts (c : ContainerInfo) (h : containerInert c = false) :
    (lookupLabel c.labels (str "traefik.enable") != some (str "true")) = false
    ∧ (extractTraefikHosts c.labels == []) = false
    ∧ ∃ h' ∈ extractTraefikHosts c.labels, hostSkipped h' = false := by
  unfold containerInert at h
  simp only [Bool.or_eq_false_iff] at h
  obtain ⟨⟨ha, hb⟩, hc⟩ := h
  refine ⟨ha, hb, ?_⟩
  by_contra hno
  push_neg at hno
  have : (extractTraefikHosts c.labels).all hostSkipped = true := by
    apply List.all_eq_true.mpr
    intro x hx
    rcases Bool.eq_false_or_eq_true (hostSkipped x) with ht | hf
    · exact ht
    · exact absurd hf (hno x hx)
  rw [this] at hc
  cases hc

theorem createDNS_inert (cfg : Config) (co : CreateOracle) (s : EngineState)
    (c : ContainerInfo) (h : containerInert c = true) :
    createDNSRecordsForContainer cfg co s c = (s, []) := by
  by_cases h1 : (lookupLabel c.labels (str "traefik.enable") != some (str "true")) = true
  · exact createDNS_gate cfg co s c h1
  · rw [Bool.not_eq_true] at h1
    by_cases h2 : (extractTraefikHosts c.labels == []) = true
    · unfold createDNSRecordsForContainer
      rw [if_neg (by simp [h1]), if_pos h2]
    · rw [Bool.not_eq_true] at h2
      have h3 : (extractTraefikHosts c.labels).all hostSkipped = true := by
        unfold containerInert at h
        rw [h1, h2] at h
        simpa using h
      unfold createDNSRecordsForContainer
      rw [if_neg (by simp [h1]), if_neg (by simp [h2])]
      exact hostsFold_all_skipped cfg co (shortId c.id) _ s []
        (fun h' hh' => List.all_eq_true.mp h3 h' hh')

theorem createDNS_establish (cfg : Config) (co : CreateOracle) (s : EngineState)
    (c : ContainerInfo) (hni : containerInert c = false)
    (hok : ∀ e ∈ (createDNSRecordsForContainer cfg co s c).2, createOk e = true) :
    hasRecordsFor ((createDNSRecordsForContainer cfg co s c).1) (shortId c.id) = true := by
  obtain ⟨ha, hb, hex⟩ := containerInert_false_parts c hni
  unfold createDNSRecordsForContainer at hok ⊢
  rw [if_neg (by simp [ha]), if_neg (by simp [hb])] at hok ⊢
  exact hostsFold_creates cfg co (shortId c.id) _ s [] hex hok

/-! ### Pending-cancellation lemmas -/

theorem cancelPending_records (s : EngineState) (cid : Str) :
    (cancelPending s cid).managedRecords = s.managedRecords
    ∧ (cancelPending s cid).nextTimer = s.nextTimer := by
  unfold cancelPending
  by_cases h : pendingHas s cid = true
  · rw [if_pos h]
    exact ⟨rfl, rfl⟩
  · rw [if_neg h]
    exact ⟨rfl, rfl⟩

theorem cancelPending_self (s : EngineState) (cid : Str) :
    pendingHas (cancelPending s cid) cid = false := by
  unfold cancelPending
  by_cases h : pendingHas s cid = true
  · rw [if_pos h]
    exact mapDelete_any_key s.pending cid
  · rw [if_neg h]
    rw [Bool.not_eq_true] at h
    exact h

theorem cancelPending_pending_sub (s : EngineState) (cid x : Str)
    (hx : pendingHas (cancelPending s cid) x = true) : pendingHas s x = true := by
  unfold cancelPending at hx
  by_cases h : pendingHas s cid = true
  · rw [if_pos h] at hx
    rcases List.any_eq_true.mp hx with ⟨p, hp, hpx⟩
    exact List.any_eq_true.mpr ⟨p, (List.mem_filter.mp hp).1, hpx⟩
  · rw [if_neg h] at hx
    exact hx

theorem cancelPending_nodup (s : EngineState) (cid : Str)
    (h : (s.pending.map Prod.fst).Nodup) :
    ((cancelPending s cid).pending.map Prod.fst).Nodup := by
  unfold cancelPending
  by_cases hc : pendingHas s cid = true
  · rw [if_pos hc]
    exact mapDelete_keys_nodup s.pending cid h
  · rw [if_neg hc]
    exact h

/-! ### Specification lemmas for the per-container tick step -/

theorem tickContainerStep_skip (cfg : Config) (co : CreateOracle)
    (acc : EngineState × List Event × List Str) (c : ContainerInfo)
    (h : (c.state == str "running") = false) :
    tickContainerStep cfg co acc c = acc := by
  unfold tickContainerStep
  rw [if_neg (by simp [h])]

theorem tickContainerStep_has (cfg : Config) (co : CreateOracle)
    (acc : EngineState × List Event × List Str) (c : ContainerInfo)
    (h : (c.state == str "running") = true)
    (hr : hasRecordsFor acc.1 (shortId c.id) = true) :
    tickContainerStep cfg co acc c
      = (cancelPending acc.1 (shortId c.id), acc.2.1, acc.2.2 ++ [shortId c.id]) := by
  simp only [tickContainerStep]
  rw [if_pos h, if_pos hr]
  simp

theorem tickContainerStep_create (cfg : Config) (co : CreateOracle)
    (acc : EngineState × List Event × List Str) (c : ContainerInfo)
    (h : (c.state == str "running") = true)
    (hr : hasRecordsFor acc.1 (shortId c.id) = false) :
    tickContainerStep cfg co acc c
      = (cancelPending (createDNSRecordsForContainer cfg co acc.1 c).1 (shortId c.id),
         acc.2.1 ++ (createDNSRecordsForContainer cfg co acc.1 c).2,
         acc.2.2 ++ [shortId c.id]) := by
  simp only [tickContainerStep]
  rw [if_pos h, if_neg (by simp [hr])]

/-! ### Lemmas about the running-container loop of a tick -/

theorem runningIdsOf_cons_running (c : ContainerInfo) (t : List ContainerInfo)
    (h : (c.state == str "running") = true) :
    runningIdsOf (c :: t) = shortId c.id :: runningIdsOf t := by
  have he : c.state = str "running" := eq_of_beq h
  simp [runningIdsOf, List.filterMap_cons, he]

theorem runningIdsOf_cons_skip (c : ContainerInfo) (t : List ContainerInfo)
    (h : (c.state == str "running") = false) :
    runningIdsOf (c :: t) = runningIdsOf t := by
  have he : c.state ≠ str "running" := ne_of_beq_false h
  simp [runningIdsOf, List.filterMap_cons, he]

theorem mem_runningIdsOf (listing : List ContainerInfo) (c : ContainerInfo)
    (hc : c ∈ listing) (h : (c.state == str "running") = true) :
    shortId c.id ∈ runningIdsOf listing := by
  unfold runningIdsOf
  exact List.mem_filterMap.mpr ⟨c, hc, by simp [h]⟩

theorem phase1_pending_sub (cfg : Config) (co : CreateOracle)
    (listing : List ContainerInfo) :
    ∀ (acc : EngineState × List Event × List Str) (x : Str),
    pendingHas ((listing.foldl (tickContainerStep cfg co) acc).1) x = true →
    pendingHas acc.1 x = true := by
  induction listing with
  | nil => exact fun acc x h => h
  | cons c t ih =>
    intro acc x h
    rw [List.foldl_cons] at h
    have h1 := ih _ x h
    by_cases hrun : (c.state == str "running") = true
    · by_cases hr : hasRecordsFor acc.1 (shortId c.id) = true
      · rw [tickContainerStep_has cfg co acc c hrun hr] at h1
        exact cancelPending_pending_sub _ _ _ h1
      · rw [Bool.not_eq_true] at hr
        rw [tickContainerStep_create cfg co acc c hrun hr] at h1
        have h2 := cancelPending_pending_sub _ _ _ h1
        unfold pendingHas at h2 ⊢
        rw [(createDNS_pending cfg co acc.1 c).1] at h2
        exact h2
    · rw [Bool.not_eq_true] at hrun
      rw [tickContainerStep_skip cfg co acc c hrun] at h1
      exact h1

theorem phase1_records_any_mono (cfg : Config) (co : CreateOracle)
    (listing : List ContainerInfo) (P : Str → Bool) :
    ∀ (acc : EngineState × List Event × List Str),
    acc.1.managedRecords.any (fun p => P p.1) = true →
    ((listing.foldl (tickContainerStep cfg co) acc).1).managedRecords.any
      (fun p => P p.1) = true := by
  induction listing with
  | nil => exact fun acc h => h
  | cons c t ih =>
    intro acc h
    rw [List.foldl_cons]
    apply ih
    by_cases hrun : (c.state == str "running") = true
    · by_cases hr : hasRecordsFor acc.1 (shortId c.id) = true
      · rw [tickContainerStep_has cfg co acc c hrun hr]
        show (cancelPending acc.1 (shortId c.id)).managedRecords.any _ = true
        rw [(cancelPending_records acc.1 (shortId c.id)).1]
        exact h
      · rw [Bool.not_eq_true] at hr
        rw [tickContainerStep_create cfg co acc c hrun hr]
        show (cancelPending (createDNSRecordsForContainer cfg co acc.1 c).1
          (shortId c.id)).managedRecords.any _ = true
        rw [(cancelPending_records _ (shortId c.id)).1]
        exact createDNS_any_mono cfg co acc.1 c P h
    · rw [Bool.not_eq_true] at hrun
      rw [tickContainerStep_skip cfg co acc c hrun]
      exact h

theorem phase1_log_append (cfg : Config) (co : CreateOracle)
    (listing : List ContainerInfo) :
    ∀ (acc : EngineState × List Event × List Str),
    ∃ tl, (listing.foldl (tickContainerStep cfg co) acc).2.1 = acc.2.1 ++ tl := by
  induction listing with
  | nil => exact fun acc => ⟨[], by simp⟩
  | cons c t ih =>
    intro acc
    rw [List.foldl_cons]
    by_cases hrun : (c.state == str "running") = true
    · by_cases hr : hasRecordsFor acc.1 (shortId c.id) = true
      · rw [tickContainerStep_has cfg co acc c hrun hr]
        rcases ih (cancelPending acc.1 (shortId c.id), acc.2.1,
          acc.2.2 ++ [shortId c.id]) with ⟨tl, htl⟩
        exact ⟨tl, htl⟩
      · rw [Bool.not_eq_true] at hr
        rw [tickContainerStep_create cfg co acc c hrun hr]
        rcases ih (cancelPending (createDNSRecordsForContainer cfg co acc.1 c).1
            (shortId c.id),
          acc.2.1 ++ (createDNSRecordsForContainer cfg co acc.1 c).2,
          acc.2.2 ++ [shortId c.id]) with ⟨tl, htl⟩
        exact ⟨(createDNSRecordsForContainer cfg co acc.1 c).2 ++ tl,
          by rw [htl, List.append_assoc]⟩
    · rw [Bool.not_eq_true] at hrun
      rw [tickContainerStep_skip cfg co acc c hrun]
      exact ih acc

theorem phase1_running (cfg : Config) (co : CreateOracle)
    (listing : List ContainerInfo) :
    ∀ (acc : EngineState × List Event × List Str),
    (listing.foldl (tickContainerStep cfg co) acc).2.2
      = acc.2.2 ++ runningIdsOf listing := by
  induction listing with
  | nil => exact fun acc => by simp [runningIdsOf]
  | cons c t ih =>
    intro acc
    rw [List.foldl_cons]
    by_cases hrun : (c.state == str "running") = true
    · rw [runningIdsOf_cons_running c t hrun]
      by_cases hr : hasRecordsFor acc.1 (shortId c.id) = true
      · rw [tickContainerStep_has cfg co acc c hrun hr, ih]
        simp
      · rw [Bool.not_eq_true] at hr
        rw [tickContainerStep_create cfg co acc c hrun hr, ih]
        simp
    · rw [Bool.not_eq_true] at hrun
      rw [runningIdsOf_cons_skip c t hrun, tickContainerStep_skip cfg co acc c hrun]
      exact ih acc

theorem phase1_processed (cfg : Config) (co : CreateOracle)
    (listing : List ContainerInfo) :
    ∀ (acc : EngineState × List Event × List Str) (c : ContainerInfo),
    c ∈ listing → (c.state == str "running") = true →
    pendingHas ((listing.foldl (tickContainerStep cfg co) acc).1) (shortId c.id) = false := by
  induction listing with
  | nil =>
    intro acc c hc
    cases hc
  | cons c0 t ih =>
    intro acc c hc hrun
    rw [List.foldl_cons]
    rcases List.mem_cons.mp hc with rfl | hmem
    · have hstep : pendingHas ((tickContainerStep cfg co acc c).1) (shortId c.id) = false := by
        by_cases hr : hasRecordsFor acc.1 (shortId c.id) = true
        · rw [tickContainerStep_has cfg co acc c hrun hr]
          exact cancelPending_self _ _
        · rw [Bool.not_eq_true] at hr
          rw [tickContainerStep_create cfg co acc c hrun hr]
          exact cancelPending_self _ _
      rcases Bool.eq_false_or_eq_true (pendingHas
          ((t.foldl (tickContainerStep cfg co) (tickContainerStep cfg co acc c)).1)
          (shortId c.id)) with ht | hf
      · exfalso
        have := phase1_pending_sub cfg co t _ _ ht
        rw [hstep] at this
        cases this
      · exact hf
    · exact ih _ c hmem hrun

theorem phase1_establish (cfg : Config) (co : CreateOracle)
    (listing : List ContainerInfo) :
    ∀ (acc : EngineState × List Event × List Str),
    (∀ e ∈ (listing.foldl (tickContainerStep cfg co) acc).2.1, createOk e = true) →
    ∀ c ∈ listing, (c.state == str "running") = true →
    hasRecordsFor ((listing.foldl (tickContainerStep cfg co) acc).1) (shortId c.id) = true
      ∨ containerInert c = true := by
  induction listing with
  | nil =>
    intro acc _ c hc
    cases hc
  | cons c0 t ih =>
    intro acc hall c hc hrun
    rw [List.foldl_cons] at hall ⊢
    rcases List.mem_cons.mp hc with rfl | hmem
    · by_cases hr : hasRecordsFor acc.1 (shortId c.id) = true
      · left
        rw [tickContainerStep_has cfg co acc c hrun hr]
        apply phase1_records_any_mono cfg co t _ _
        show (cancelPending acc.1 (shortId c.id)).managedRecords.any _ = true
        rw [(cancelPending_records acc.1 (shortId c.id)).1]
        exact hr
      · by_cases hin : containerInert c = true
        · right
          exact hin
        · left
          rw [Bool.not_eq_true] at hr hin
          rw [tickContainerStep_create cfg co acc c hrun hr] at hall ⊢
          rcases phase1_log_append cfg co t
              (cancelPending (createDNSRecordsForContainer cfg co acc.1 c).1 (shortId c.id),
               acc.2.1 ++ (createDNSRecordsForContainer cfg co acc.1 c).2,
               acc.2.2 ++ [shortId c.id]) with ⟨tl, htl⟩
          have hokX : ∀ e ∈ (createDNSRecordsForContainer cfg co acc.1 c).2,
              createOk e = true := by
            intro e he
            apply hall
            rw [htl]
            exact List.mem_append_left _ (List.mem_append_right _ he)
          apply phase1_records_any_mono cfg co t _ _
          show (cancelPending (createDNSRecordsForContainer cfg co acc.1 c).1
            (shortId c.id)).managedRecords.any _ = true
          rw [(cancelPending_records _ (shortId c.id)).1]
          exact createDNS_establish cfg co acc.1 c hin hokX
    · exact ih _ hall c hmem hrun

theorem phase1_pending_nodup (cfg : Config) (co : CreateOracle)
    (listing : List ContainerInfo) :
    ∀ (acc : EngineState × List Event × List Str),
    (acc.1.pending.map Prod.fst).Nodup →
    (((listing.foldl (tickContainerStep cfg co) acc).1).pending.map Prod.fst).Nodup := by
  induction listing with
  | nil => exact fun acc h => h
  | cons c t ih =>
    intro acc h
    rw [List.foldl_cons]
    apply ih
    by_cases hrun : (c.state == str "running") = true
    · by_cases hr : hasRecordsFor acc.1 (shortId c.id) = true
      · rw [tickContainerStep_has cfg co acc c hrun hr]
        exact cancelPending_nodup acc.1 (shortId c.id) h
      · rw [Bool.not_eq_true] at hr
        rw [tickContainerStep_create cfg co acc c hrun hr]
        apply cancelPending_nodup
        rw [(createDNS_pending cfg co acc.1 c).1]
        exact h
    · rw [Bool.not_eq_true] at hrun
      rw [tickContainerStep_skip cfg co acc c hrun]
      exact h

theorem phase1_stable (cfg : Config) (co : CreateOracle)
    (listing : List ContainerInfo) :
    ∀ (s : EngineState) (ev : List Event) (run : List Str),
    (∀ c ∈ listing, (c.state == str "running") = true →
      (hasRecordsFor s (shortId c.id) = true ∨ containerInert c = true)
      ∧ pendingHas s (shortId c.id) = false) →
    listing.foldl (tickContainerStep cfg co) (s, ev, run)
      = (s, ev, run ++ runningIdsOf listing) := by
  induction listing with
  | nil =>
    intro s ev run _
    simp [runningIdsOf]
  | cons c t ih =>
    intro s ev run hyp
    rw [List.foldl_cons]
    by_cases hrun : (c.state == str "running") = true
    · obtain ⟨hor, hpf⟩ := hyp c (List.mem_cons_self c t) hrun
      have hcp : cancelPending s (shortId c.id) = s := by
        unfold cancelPending
        rw [if_neg (by simp [hpf])]
      have hstep : tickContainerStep cfg co (s, ev, run) c
          = (s, ev, run ++ [shortId c.id]) := by
        by_cases hr : hasRecordsFor s (shortId c.id) = true
        · have := tickContainerStep_has cfg co (s, ev, run) c hrun hr
          rw [this]
          show (cancelPending s (shortId c.id), ev, run ++ [shortId c.id]) = _
          rw [hcp]
        · rw [Bool.not_eq_true] at hr
          rcases hor with hr' | hin
          · rw [hr'] at hr
            cases hr
          · have := tickContainerStep_create cfg co (s, ev, run) c hrun hr
            rw [this]
            show (cancelPending (createDNSRecordsForContainer cfg co s c).1 (shortId c.id),
              ev ++ (createDNSRecordsForContainer cfg co s c).2,
              run ++ [shortId c.id]) = _
            rw [createDNS_inert cfg co s c hin]
            show (cancelPending s (shortId c.id), ev ++ [], run ++ [shortId c.id]) = _
            rw [hcp, List.append_nil]
      rw [hstep, ih s ev (run ++ [shortId c.id])
        (fun c' hc' h' => hyp c' (List.mem_cons_of_mem _ hc') h'),
        runningIdsOf_cons_running c t hrun]
      simp
    · rw [Bool.not_eq_true] at hrun
      rw [tickContainerStep_skip cfg co (s, ev, run) c hrun,
        runningIdsOf_cons_skip c t hrun]
      exact ih s ev run (fun c' hc' h' => hyp c' (List.mem_cons_of_mem _ hc') h')

theorem phase1_gate_log (cfg : Config) (co : CreateOracle)
    (listing : List ContainerInfo) :
    ∀ (acc : EngineState × List Event × List Str),
    (∀ c ∈ listing,
      (lookupLabel c.labels (str "traefik.enable") != some (str "true")) = true) →
    (listing.foldl (tickContainerStep cfg co) acc).2.1 = acc.2.1 := by
  induction listing with
  | nil => exact fun acc _ => rfl
  | cons c t ih =>
    intro acc hall
    rw [List.foldl_cons]
    have hrest := fun c' hc' => hall c' (List.mem_cons_of_mem _ hc')
    by_cases hrun : (c.state == str "running") = true
    · by_cases hr : hasRecordsFor acc.1 (shortId c.id) = true
      · rw [tickContainerStep_has cfg co acc c hrun hr]
        exact ih _ hrest
      · rw [Bool.not_eq_true] at hr
        rw [tickContainerStep_create cfg co acc c hrun hr,
          createDNS_gate cfg co acc.1 c (hall c (List.mem_cons_self c t)),
          ih _ hrest]
        simp
    · rw [Bool.not_eq_true] at hrun
      rw [tickContainerStep_skip cfg co acc c hrun]
      exact ih acc hrest

/-! ### Lemmas about the deletion-scheduling pass -/

theorem spStep_skip (running : List Str) (acc : EngineState × List Event)
    (p : Str × ManagedRecord)
    (h : (!(running.contains p.2.containerId)
      && !(pendingHas acc.1 p.2.containerId)) = false) :
    spStep running acc p = acc := by
  unfold spStep
  rw [if_neg (by rw [h]; exact Bool.false_ne_true)]

theorem spStep_arm (running : List Str) (acc : EngineState × List Event)
    (p : Str × ManagedRecord)
    (h : (!(running.contains p.2.containerId)
      && !(pendingHas acc.1 p.2.containerId)) = true) :
    spStep running acc p
      = ({ acc.1 with
            pending := mapSet acc.1.pending p.2.containerId acc.1.nextTimer,
            nextTimer := acc.1.nextTimer + 1 },
         acc.2 ++ [Event.armTimer p.2.containerId]) := by
  unfold spStep scheduleRecordDeletion
  rw [if_pos h]

theorem spFold_records (running : List Str) (l : List (Str × ManagedRecord)) :
    ∀ (acc : EngineState × List Event),
    ((l.foldl (spStep running) acc).1).managedRecords = acc.1.managedRecords := by
  induction l with
  | nil => exact fun acc => rfl
  | cons p t ih =>
    intro acc
    rw [List.foldl_cons]
    by_cases h : (!(running.contains p.2.containerId)
        && !(pendingHas acc.1 p.2.containerId)) = true
    · rw [spStep_arm running acc p h, ih]
    · rw [Bool.not_eq_true] at h
      rw [spStep_skip running acc p h]
      exact ih acc

theorem spStep_pending_mono (running : List Str) (acc : EngineState × List Event)
    (p : Str × ManagedRecord) (x : Str)
    (h : pendingHas acc.1 x = true) :
    pendingHas ((spStep running acc p).1) x = true := by
  by_cases hg : (!(running.contains p.2.containerId)
      && !(pendingHas acc.1 p.2.containerId)) = true
  · rw [spStep_arm running acc p hg]
    show (mapSet acc.1.pending p.2.containerId acc.1.nextTimer).any
      (fun q => q.1 == x) = true
    exact mapSet_any_key_mono _ _ _ (fun k => k == x) h
  · rw [Bool.not_eq_true] at hg
    rw [spStep_skip running acc p hg]
    exact h

theorem spFold_pending_mono (running : List Str) (l : List (Str × ManagedRecord)) :
    ∀ (acc : EngineState × List Event) (x : Str),
    pendingHas acc.1 x = true →
    pendingHas ((l.foldl (spStep running) acc).1) x = true := by
  induction l with
  | nil => exact fun acc x h => h
  | cons p t ih =>
    intro acc x h
    rw [List.foldl_cons]
    exact ih _ x (spStep_pending_mono running acc p x h)

theorem spFold_pending_false_of_running (running : List Str)
    (l : List (Str × ManagedRecord)) :
    ∀ (acc : EngineState × List Event) (x : Str),
    running.contains x = true →
    pendingHas acc.1 x = false →
    pendingHas ((l.foldl (spStep running) acc).1) x = false := by
  induction l with
  | nil => exact fun acc x _ h => h
  | cons p t ih =>
    intro acc x hx h
    rw [List.foldl_cons]
    apply ih _ x hx
    by_cases hg : (!(running.contains p.2.containerId)
        && !(pendingHas acc.1 p.2.containerId)) = true
    · rw [spStep_arm running acc p hg]
      have hnc : running.contains p.2.containerId = false := by
        rcases Bool.eq_false_or_eq_true (running.contains p.2.containerId) with h1 | h1
        · rw [Bool.and_eq_true] at hg
          rw [h1] at hg
          simpa using hg.1
        · exact h1
      have hne : p.2.containerId ≠ x := by
        intro hc
        rw [hc, hx] at hnc
        cases hnc
      show (mapSet acc.1.pending p.2.containerId acc.1.nextTimer).any
        (fun q => q.1 == x) = false
      exact mapSet_any_key_of_ne _ _ _ x hne h
    · rw [Bool.not_eq_true] at hg
      rw [spStep_skip running acc p hg]
      exact h

theorem spFold_covers (running : List Str) (l : List (Str × ManagedRecord)) :
    ∀ (acc : EngineState × List Event) (p : Str × ManagedRecord),
    p ∈ l → running.contains p.2.containerId = false →
    pendingHas ((l.foldl (spStep running) acc).1) p.2.containerId = true := by
  induction l with
  | nil =>
    intro acc p hp
    cases hp
  | cons q t ih =>
    intro acc p hp hnc
    rw [List.foldl_cons]
    rcases List.mem_cons.mp hp with rfl | hmem
    · by_cases hpend : pendingHas acc.1 p.2.containerId = true
      · exact spFold_pending_mono running t _ _ (spStep_pending_mono running acc p _ hpend)
      · rw [Bool.not_eq_true] at hpend
        have hg : (!(running.contains p.2.containerId)
            && !(pendingHas acc.1 p.2.containerId)) = true := by
          rw [hnc, hpend]
          rfl
        apply spFold_pending_mono running t _ _
        rw [spStep_arm running acc p hg]
        show (mapSet acc.1.pending p.2.containerId acc.1.nextTimer).any
          (fun q => q.1 == p.2.containerId) = true
        exact mapSet_any_key_of _ _ _ (fun k => k == p.2.containerId) (by simp)
    · exact ih _ p hmem hnc

theorem spFold_stable (running : List Str) (l : List (Str × ManagedRecord)) :
    ∀ (s : EngineState) (ev : List Event),
    (∀ p ∈ l, (!(running.contains p.2.containerId)
      && !(pendingHas s p.2.containerId)) = false) →
    l.foldl (spStep running) (s, ev) = (s, ev) := by
  induction l with
  | nil => exact fun s ev _ => rfl
  | cons p t ih =>
    intro s ev hall
    rw [List.foldl_cons, spStep_skip running (s, ev) p (hall p (List.mem_cons_self p t))]
    exact ih s ev (fun q hq => hall q (List.mem_cons_of_mem _ hq))

theorem spFold_pending_nodup (running : List Str) (l : List (Str × ManagedRecord)) :
    ∀ (acc : EngineState × List Event),
    (acc.1.pending.map Prod.fst).Nodup →
    (((l.foldl (spStep running) acc).1).pending.map Prod.fst).Nodup := by
  induction l with
  | nil => exact fun acc h => h
  | cons p t ih =>
    intro acc h
    rw [List.foldl_cons]
    apply ih
    by_cases hg : (!(running.contains p.2.containerId)
        && !(pendingHas acc.1 p.2.containerId)) = true
    · rw [spStep_arm running acc p hg]
      exact mapSet_keys_nodup _ _ _ h
    · rw [Bool.not_eq_true] at hg
      rw [spStep_skip running acc p hg]
      exact h

theorem spFold_events (running : List Str) (l : List (Str × ManagedRecord)) :
    ∀ (acc : EngineState × List Event),
    (∀ e ∈ acc.2, isCreateEvent e = false) →
    ∀ e ∈ (l.foldl (spStep running) acc).2, isCreateEvent e = false := by
  induction l with
  | nil => exact fun acc h => h
  | cons p t ih =>
    intro acc h
    rw [List.foldl_cons]
    apply ih
    by_cases hg : (!(running.contains p.2.containerId)
        && !(pendingHas acc.1 p.2.containerId)) = true
    · rw [spStep_arm running acc p hg]
      intro e he
      rcases List.mem_append.mp he with h1 | h1
      · exact h e h1
      · rw [List.mem_singleton.mp h1]
        rfl
    · rw [Bool.not_eq_true] at hg
      rw [spStep_skip running acc p hg]
      exact h

/-! ### Whole-tick lemmas -/

theorem tick_fst_eq (cfg : Config) (co : CreateOracle) (listing : List ContainerInfo)
    (s : EngineState) :
    (tick cfg co listing s).1
      = (schedulePass (listing.foldl (tickContainerStep cfg co) (s, [], [])).1
          (listing.foldl (tickContainerStep cfg co) (s, [], [])).2.2).1 := rfl

theorem tick_snd_eq (cfg : Config) (co : CreateOracle) (listing : List ContainerInfo)
    (s : EngineState) :
    (tick cfg co listing s).2
      = (listing.foldl (tickContainerStep cfg co) (s, [], [])).2.1
        ++ (schedulePass (listing.foldl (tickContainerStep cfg co) (s, [], [])).1
             (listing.foldl (tickContainerStep cfg co) (s, [], [])).2.2).2 := rfl

theorem tick_pending_nodup (cfg : Config) (co : CreateOracle)
    (listing : List ContainerInfo) (s : EngineState)
    (h : (s.pending.map Prod.fst).Nodup) :
    (((tick cfg co listing s).1).pending.map Prod.fst).Nodup := by
  rw [tick_fst_eq]
  unfold schedulePass
  apply spFold_pending_nodup
  exact phase1_pending_nodup cfg co listing (s, [], []) h

theorem fire_pending_nodup (delo : DeleteOracle) (cid : Str) (s : EngineState)
    (h : (s.pending.map Prod.fst).Nodup) :
    (((deletionTimerFires delo cid s).1).pending.map Prod.fst).Nodup := by
  show ((mapDelete ((s.managedRecords.filter
      (fun p => p.2.containerId == cid)).foldl (fireStep delo)
        (s, [])).1.pending cid).map Prod.fst).Nodup
  apply mapDelete_keys_nodup
  rw [(fire_fold_pending delo _ s []).1]
  exact h

/-- C5: in every reachable engine state the pending-deletion table holds at
most one entry per container id, and arming a deletion for any container —
already pending or not — leaves exactly one entry for that container,
carrying the freshly armed timer (the old timer was cleared and its map
entry overwritten, never stacked). -/
theorem pending_deletion_unique (cfg : Config) (s : EngineState) (h : Reach cfg s) :
    (s.pending.map Prod.fst).Nodup
    ∧ ∀ cid, ((scheduleRecordDeletion s cid).1.pending.filter (fun p => p.1 == cid))
        = [(cid, s.nextTimer)] := by
  have hn : (s.pending.map Prod.fst).Nodup := by
    induction h with
    | init => simp [initialState]
    | step_tick co listing hs ih => exact tick_pending_nodup _ _ _ _ ih
    | step_fire delo cid hs hp ih => exact fire_pending_nodup _ _ _ ih
  refine ⟨hn, fun cid => ?_⟩
  show ((mapSet s.pending cid s.nextTimer).filter (fun p => p.1 == cid)) = _
  exact mapSet_filter_key s.pending cid s.nextTimer hn

theorem pending_deletion_unique_witness :
    ((((tick demoConfig acceptAll []
        (tick demoConfig acceptAll [demoContainerBare] initialState).1).1).pending.map
          Prod.fst).Nodup)
    ∧ ((scheduleRecordDeletion
          (tick demoConfig acceptAll []
            (tick demoConfig acceptAll [demoContainerBare] initialState).1).1
          (str "c1c1c1c1c1c1")).1.pending.filter
            (fun p => p.1 == str "c1c1c1c1c1c1"))
        = [(str "c1c1c1c1c1c1",
            ((tick demoConfig acceptAll []
              (tick demoConfig acceptAll [demoContainerBare] initialState).1).1).nextTimer)] := by
  have hr : Reach demoConfig (tick demoConfig acceptAll []
      (tick demoConfig acceptAll [demoContainerBare] initialState).1).1 :=
    Reach.step_tick acceptAll []
      (Reach.step_tick acceptAll [demoContainerBare] Reach.init)
  exact ⟨(pending_deletion_unique demoConfig _ hr).1,
         (pending_deletion_unique demoConfig _ hr).2 (str "c1c1c1c1c1c1")⟩

/-- C1 (amended): a second tick over an unchanged container listing is a
no-op — no registrar call, no armed timer, tables unchanged — provided
every create call issued by the first tick succeeded.  (The counterexample
shows the unconditional claim fails: a failed create is retried.)  The
second tick's registrar may behave arbitrarily, since it is never
consulted. -/
theorem tick_idempotent_after_successful_tick (cfg : Config) (co co' : CreateOracle)
    (listing : List ContainerInfo) (s0 : EngineState)
    (h : ((tick cfg co listing s0).2).all createOk = true) :
    tick cfg co' listing (tick cfg co listing s0).1
      = ((tick cfg co listing s0).1, []) := by
  have hall1 : ∀ e ∈ (listing.foldl (tickContainerStep cfg co) (s0, [], [])).2.1,
      createOk e = true := by
    intro e he
    apply List.all_eq_true.mp h
    rw [tick_snd_eq]
    exact List.mem_append_left _ he
  have hrun1 : (listing.foldl (tickContainerStep cfg co) (s0, [], [])).2.2
      = runningIdsOf listing := by
    have := phase1_running cfg co listing (s0, [], [])
    simpa using this
  have hrecs1 : ((tick cfg co listing s0).1).managedRecords
      = (listing.foldl (tickContainerStep cfg co) (s0, [], [])).1.managedRecords := by
    rw [tick_fst_eq]
    unfold schedulePass
    exact spFold_records _ _ _
  have hF1 : ∀ c ∈ listing, (c.state == str "running") = true →
      hasRecordsFor ((tick cfg co listing s0).1) (shortId c.id) = true
        ∨ containerInert c = true := by
    intro c hc hcr
    rcases phase1_establish cfg co listing (s0, [], []) hall1 c hc hcr with h1 | h1
    · left
      show ((tick cfg co listing s0).1).managedRecords.any _ = true
      rw [hrecs1]
      exact h1
    · right
      exact h1
  have hF2 : ∀ c ∈ listing, (c.state == str "running") = true →
      pendingHas ((tick cfg co listing s0).1) (shortId c.id) = false := by
    intro c hc hcr
    have h1 : pendingHas (listing.foldl (tickContainerStep cfg co) (s0, [], [])).1
        (shortId c.id) = false := phase1_processed cfg co listing _ c hc hcr
    have hcont : (runningIdsOf listing).contains (shortId c.id) = true :=
      List.elem_eq_true_of_mem (mem_runningIdsOf listing c hc hcr)
    rw [tick_fst_eq]
    unfold schedulePass
    apply spFold_pending_false_of_running _ _ _ (shortId c.id) _ h1
    rw [hrun1]
    exact hcont
  have hF3 : ∀ p ∈ ((tick cfg co listing s0).1).managedRecords,
      (runningIdsOf listing).contains p.2.containerId = false →
      pendingHas ((tick cfg co listing s0).1) p.2.containerId = true := by
    intro p hp hnc
    rw [hrecs1] at hp
    rw [tick_fst_eq]
    unfold schedulePass
    apply spFold_covers _ _ _ p hp
    rw [hrun1]
    exact hnc
  have hph2 : listing.foldl (tickContainerStep cfg co')
      ((tick cfg co listing s0).1, [], [])
      = ((tick cfg co listing s0).1, [], runningIdsOf listing) := by
    have := phase1_stable cfg co' listing (tick cfg co listing s0).1 [] []
      (fun c hc hcr => ⟨hF1 c hc hcr, hF2 c hc hcr⟩)
    simpa using this
  have hsp2 : schedulePass (tick cfg co listing s0).1 (runningIdsOf listing)
      = ((tick cfg co listing s0).1, []) := by
    unfold schedulePass
    apply spFold_stable
    intro p hp
    by_cases hc : (runningIdsOf listing).contains p.2.containerId = true
    · rw [hc]
      rfl
    · rw [Bool.not_eq_true] at hc
      rw [hc, hF3 p hp hc]
      rfl
  rw [tick_snd_eq] at h
  calc tick cfg co' listing (tick cfg co listing s0).1
      = ((schedulePass (listing.foldl (tickContainerStep cfg co')
            ((tick cfg co listing s0).1, [], [])).1
           (listing.foldl (tickContainerStep cfg co')
            ((tick cfg co listing s0).1, [], [])).2.2).1,
         (listing.foldl (tickContainerStep cfg co')
            ((tick cfg co listing s0).1, [], [])).2.1
           ++ (schedulePass (listing.foldl (tickContainerStep cfg co')
                ((tick cfg co listing s0).1, [], [])).1
               (listing.foldl (tickContainerStep cfg co')
                ((tick cfg co listing s0).1, [], [])).2.2).2) := rfl
    _ = ((tick cfg co listing s0).1, []) := by
        rw [hph2]
        show ((schedulePass (tick cfg co listing s0).1 (runningIdsOf listing)).1,
          [] ++ (schedulePass (tick cfg co listing s0).1 (runningIdsOf listing)).2) = _
        rw [hsp2]
        rfl

theorem tick_idempotent_witness :
    ((tick demoConfig acceptAll [demoContainerBare] initialState).2).all createOk = true
    ∧ tick demoConfig acceptAll [demoContainerBare]
        (tick demoConfig acceptAll [demoContainerBare] initialState).1
      = ((tick demoConfig acceptAll [demoContainerBare] initialState).1, []) :=
  ⟨by decide,
   tick_idempotent_after_successful_tick demoConfig acceptAll acceptAll
     [demoContainerBare] initialState (by decide)⟩

/-- C4 (amended): the enablement gate lives in
`createDNSRecordsForContainer`, not in the Label Parser: when no container
of the listing carries `traefik.enable` with value exactly `true`, a tick
issues no create call at all (its only events are timer armings). -/
theorem no_create_calls_without_enable (cfg : Config) (co : CreateOracle)
    (listing : List ContainerInfo) (s : EngineState)
    (h : (listing.all (fun c =>
      lookupLabel c.labels (str "traefik.enable") != some (str "true"))) = true) :
    ((tick cfg co listing s).2).all (fun e => !(isCreateEvent e)) = true := by
  apply List.all_eq_true.mpr
  intro e he
  rw [tick_snd_eq] at he
  rcases List.mem_append.mp he with h1 | h1
  · rw [phase1_gate_log cfg co listing (s, [], []) (List.all_eq_true.mp h)] at h1
    cases h1
  · have := spFold_events
      (listing.foldl (tickContainerStep cfg co) (s, [], [])).2.2
      ((listing.foldl (tickContainerStep cfg co) (s, [], [])).1).managedRecords
      ((listing.foldl (tickContainerStep cfg co) (s, [], [])).1, [])
      (fun e' he' => absurd he' (List.not_mem_nil e'))
      e h1
    rw [this]
    rfl

theorem no_create_calls_without_enable_witness :
    ([noEnableContainer].all (fun c =>
      lookupLabel c.labels (str "traefik.enable") != some (str "true"))) = true
    ∧ ((tick demoConfig acceptAll [noEnableContainer] initialState).2).all
        (fun e => !(isCreateEvent e)) = true :=
  ⟨by decide,
   no_create_calls_without_enable demoConfig acceptAll [noEnableContainer]
     initialState (by decide)⟩

/-- C9: two concurrently triggered `monitorContainers` invocations (the
interval tick and the on-demand sync) CAN produce two create calls for the
same (container, hostname) pair: under the schedule that runs each
invocation up to its pending `await` before the other stores its record,
both pass the `hasRecords` check and both issue
`createCNAME("example.com","app",...)` for `app.example.com` of the same
container — nothing in the code serializes, coalesces, or rejects the
second invocation. -/
theorem concurrent_ticks_duplicate_create :
    (raceRun demoConfig acceptAll demoContainerBare
        [true, false, true, false, true, false] initialState).log
      = [Event.createCall (str "example.com") (str "app")
           (str "your-server.com") 3600 true (str "app.example.com"),
         Event.createCall (str "example.com") (str "app")
           (str "your-server.com") 3600 true (str "app.example.com")] := by decide

end DnsManager
